import Mathlib

/-!
Verification of the transaction categorization and statement-aggregation
pipeline of hcb-bookkeeping-ai-playground (src/index.js).

The JavaScript source is shallowly embedded: JS objects of the chart of
accounts become an inductive tree, JS numbers that hold integer cent
amounts become `Int` (`Rat` inside the aggregator, which divides by 100),
JS strings become `String`, and the JS string methods used by the source
(`toLowerCase`, `trim`) are modelled explicitly over the character list,
mirroring ECMAScript semantics for the ASCII inputs this program handles.
The LLM calls (`generateObject`), the interactive prompt and the CSV codec
are external collaborators: they are modelled as parameters or as their
documented input/output contract (in particular csv-parse is invoked with
`trim: true`, which trims unquoted fields).  The process is assumed to run
in the UTC timezone, so `getFullYear`/`getMonth` agree with the ISO string.
-/

namespace HcbBooks

/-! ## Chart of accounts (src/index.js lines 13–117)

A JS account object has an `id`, a `name` and an optional `subAccounts`
mapping.  An absent `subAccounts` property is modelled as the empty list;
no account in the chart literal has an empty `subAccounts` object, so
"property absent" and "empty list" coincide on this data. -/

inductive AccountNode where
  | node (id name : String) (subAccounts : List AccountNode)
deriving Repr

def AccountNode.id : AccountNode → String
  | .node i _ _ => i

def AccountNode.name : AccountNode → String
  | .node _ n _ => n

def AccountNode.subAccounts : AccountNode → List AccountNode
  | .node _ _ s => s

/-- Leaf constructor shorthand for chart entries written `{ id, name }`. -/
def acct (id name : String) : AccountNode := .node id name []

/-- `CHART_OF_ACCOUNTS.income`. -/
def incomeRoot : AccountNode :=
  .node "4000" "Income"
    [ acct "4100" "Major Gifts $5k+"
    , acct "4200" "Grassroots Donations"
    , acct "4300" "Earned Revenue" ]

/-- `CHART_OF_ACCOUNTS.expenses`. -/
def expensesRoot : AccountNode :=
  .node "5000" "Expenses"
    [ .node "5100" "Personnel Expenses"
        [ acct "5110" "Salaries and Wages"
        , acct "5120" "Employee Benefits and Payroll Taxes"
        , acct "5130" "Contractors" ]
    , .node "5200" "Outside Professional Services and Fees"
        [ acct "5210" "Legal and Accounting Services" ]
    , .node "5300" "Facilities Expenses"
        [ acct "5310" "Rent and Lease Expense"
        , acct "5320" "Utilities"
        , acct "5330" "Maintenance and Repairs"
        , acct "5340" "Depreciation Expense"
        , acct "5350" "Office Supplies"
        , acct "5360" "Internet"
        , acct "5370" "Office Expenses" ]
    , .node "5400" "Technology"
        [ acct "5410" "Staff Computers"
        , acct "5420" "Software Subscriptions & Licenses"
        , acct "5430" "Servers & Hosting" ]
    , acct "5500" "Shipping & Postage"
    , .node "5600" "Insurance"
        [ acct "5610" "General Liability Insurance"
        , acct "5620" "Other Insurance" ]
    , .node "5700" "Program Expenses"
        [ .node "5710" "Travel & Transportation"
            [ acct "5711" "Travel Expense Details" ]
        , .node "5720" "Resource Distribution"
            [ acct "5721" "Direct Resources / Prizes / Grants"
            , acct "5722" "Sub-Grants To Other Orgs" ] ]
    , .node "5800" "Support Expenses"
        [ acct "5810" "Marketing and Communications"
        , acct "5820" "Training & Professional Development"
        , acct "5830" "Meeting & Conference Costs"
        , acct "5840" "Meals & Entertainment" ]
    , .node "5900" "Fundraising Expenses"
        [ acct "5910" "Travel & Transportation"
        , acct "5920" "Events"
        , acct "5930" "Other" ]
    , acct "5950" "Miscellaneous or Other Operating Expenses" ]

/-- `Object.values(CHART_OF_ACCOUNTS)`: the two top-level roots, in
insertion order. -/
def chartRoots : List AccountNode := [incomeRoot, expensesRoot]

/-! ## The nested account search of `getFullAccountName`
(src/index.js lines 350–359): pre-order depth-first search. -/

mutual

/-- `findAccount(obj)` from `getFullAccountName`: returns `obj` when its
`id` matches, else searches `obj.subAccounts` in order. -/
def findAccount (accountId : String) : AccountNode → Option AccountNode
  | .node i n subs =>
    if i = accountId then some (.node i n subs)
    else findAccountList accountId subs

/-- The `for ... of Object.values(obj.subAccounts)` loop inside
`findAccount`: first hit wins. -/
def findAccountList (accountId : String) : List AccountNode → Option AccountNode
  | [] => none
  | a :: rest =>
    match findAccount accountId a with
    | some r => some r
    | none => findAccountList accountId rest

end

/-- The loop at src/index.js lines 362–366: try `findAccount` on each
top-level account of the chart, stopping at the first hit.  This is the
resolver the spec calls `resolveById`. -/
def findAccountInChart (accountId : String) : Option AccountNode :=
  findAccountList accountId chartRoots

/-- Reading `current.parentId` (src/index.js line 372): no account object
in the chart literal carries a `parentId` property, so the access yields
`undefined`, modelled as `none`. -/
def jsParentId (_ : AccountNode) : Option String := none

/-- The `while (current)` loop of `getFullAccountName` (src/index.js lines
369–374).  Each iteration prepends `current.name` to `parts` and then sets
`current` to `findAccount(CHART_OF_ACCOUNTS)` when `current.parentId` is
truthy, and to `null` otherwise.  `parentId` is `undefined` on every chart
node (`jsParentId`), so the loop always runs exactly once; even if it were
set, `findAccount` applied to the bare `CHART_OF_ACCOUNTS` wrapper object
(which has neither an `id` nor a `subAccounts` property) returns `null`,
ending the loop after the second iteration with the same `parts`. -/
def hierarchyParts (n : AccountNode) : List String :=
  match jsParentId n with
  | none => [n.name]
  | some _ => [n.name]

/-- `getFullAccountName` (src/index.js lines 346–377): resolve the id by
depth-first search over the two roots, then build `parts` with the
parent-pointer walk and join with `' > '`. -/
def getFullAccountName (accountId : String) : String :=
  match findAccountInChart accountId with
  | none => ""
  | some current => String.intercalate " > " (hierarchyParts current)

/-! ## The spec's `fullPath`

Modelled from the spec (§4.1): "fullPath(id) -> ordered sequence of
ancestor names from root to node, joined with a separator, or not-found.
Search is a pre-order depth-first traversal across both roots", carrying
the ancestor names down during the traversal. -/

mutual

def fullPathSpecNode (accountId : String) (anc : List String) :
    AccountNode → Option (List String)
  | .node i n subs =>
    if i = accountId then some (anc ++ [n])
    else fullPathSpecList accountId (anc ++ [n]) subs

def fullPathSpecList (accountId : String) (anc : List String) :
    List AccountNode → Option (List String)
  | [] => none
  | a :: rest =>
    match fullPathSpecNode accountId anc a with
    | some r => some r
    | none => fullPathSpecList accountId anc rest

end

/-- The root-to-node name path demanded by the spec, joined with `' > '`. -/
def fullPathSpec (accountId : String) : Option String :=
  (fullPathSpecList accountId [] chartRoots).map (String.intercalate " > ")

/-! Enumeration of the chart, used to state per-node properties. -/

mutual

/-- All nodes of a subtree, in pre-order. -/
def allNodes : AccountNode → List AccountNode
  | .node i n subs => .node i n subs :: allNodesList subs

def allNodesList : List AccountNode → List AccountNode
  | [] => []
  | a :: rest => allNodes a ++ allNodesList rest

end

/-- Every node of the chart of accounts. -/
def allChartNodes : List AccountNode := allNodesList chartRoots

/-- Every account id of the chart of accounts. -/
def allChartIds : List String := allChartNodes.map AccountNode.id

/-- The ids of a node's subtree (itself and all descendants). -/
def subtreeIds (n : AccountNode) : List String :=
  (allNodes n).map AccountNode.id

/-! ## JS string operations

The methods the source uses (`toLowerCase`, `trim`, and csv-parse's
trimming) are modelled over the character list.  Whitespace is the ASCII
whitespace this pipeline can encounter. -/

/-- ASCII whitespace, as trimmed by JS `trim` on this program's data. -/
def isJsWs (c : Char) : Bool :=
  c = ' ' || c = '\t' || c = '\n' || c = '\r'

def trimLeftChars (l : List Char) : List Char := l.dropWhile isJsWs

def trimRightChars (l : List Char) : List Char :=
  (l.reverse.dropWhile isJsWs).reverse

/-- JS `String.prototype.trim`. -/
def jsTrim (s : String) : String := ⟨trimRightChars (trimLeftChars s.data)⟩

/-- JS `String.prototype.trimEnd`, used only to state properties. -/
def jsTrimEnd (s : String) : String := ⟨trimRightChars s.data⟩

/-- JS `String.prototype.toLowerCase` (ASCII range). -/
def jsToLowerCase (s : String) : String := ⟨s.data.map Char.toLower⟩

/-! ## JS decimal printing and parsing of integer amounts

The pipeline's amounts are integer cent values; `String(n)`,
`parseFloat(s)` and `n.toFixed(2)` restricted to such values are the
usual decimal representations. -/

def digitChar : Nat → Char
  | 0 => '0' | 1 => '1' | 2 => '2' | 3 => '3' | 4 => '4'
  | 5 => '5' | 6 => '6' | 7 => '7' | 8 => '8' | _ => '9'

def digitVal (c : Char) : Nat := c.toNat - 48

def isDigitChar (c : Char) : Bool := '0' ≤ c && c ≤ '9'

/-- Decimal digits, most significant first; `fuel ≥ n` suffices for the
first argument, which only drives structural termination. -/
def natDecDigitsAux : Nat → Nat → List Char
  | 0, n => [digitChar n]
  | fuel + 1, n =>
    if n < 10 then [digitChar n]
    else natDecDigitsAux fuel (n / 10) ++ [digitChar (n % 10)]

/-- Decimal digits of `n`, most significant first. -/
def natDecDigits (n : Nat) : List Char := natDecDigitsAux n n

/-- JS `String(n)` for an integer-valued number `n`. -/
def intToDecString (n : Int) : String :=
  if n < 0 then ⟨'-' :: natDecDigits n.natAbs⟩ else ⟨natDecDigits n.toNat⟩

/-- Accumulating decimal parse of a digit list. -/
def parseDigits (l : List Char) : Nat :=
  l.foldl (fun acc c => acc * 10 + digitVal c) 0

/-- JS `parseFloat`, restricted to the optionally-signed integer strings
this pipeline writes; an unparseable string (JS `NaN`) is `none`. -/
def jsParseNumber (s : String) : Option Int :=
  match s.data with
  | [] => none
  | c :: rest =>
    if c = '-' then
      if rest ≠ [] ∧ rest.all isDigitChar then some (-(parseDigits rest : Int)) else none
    else if (c :: rest).all isDigitChar then some (parseDigits (c :: rest) : Int) else none

/-- JS `n.toFixed(2)` for an integer-valued number. -/
def toFixed2 (n : Int) : String := intToDecString n ++ ".00"

/-! ## Transaction records and the idempotency key -/

/-- One loaded transaction (src/index.js lines 169–191, restricted to the
fields the idempotency key and the store read: the AI-identified date and
amount plus the `description` and `memo` extra columns).  `date` is the
ISO-8601 instant of the parsed JS `Date` (`none` = null), `amount` the
parsed cent amount (`none` = null). -/
structure Transaction where
  date : Option String
  amount : Option Int
  description : String
  memo : String
deriving DecidableEq, Repr

/-- `date.toISOString().split('T')[0]`: the characters before the first
`'T'` (the whole string when no `'T'` occurs). -/
def dateOnly (iso : String) : String := ⟨iso.data.takeWhile (fun c => c ≠ 'T')⟩

/-- The key's date component (src/index.js lines 197–199): the date part
of the ISO string for a `Date`, `''` for null. -/
def keyDateStr (t : Transaction) : String :=
  match t.date with
  | some d => dateOnly d
  | none => ""

/-- The key's amount component (lines 202–204): `toFixed(2)` for a
number, `''` for null. -/
def keyAmountStr (t : Transaction) : String :=
  match t.amount with
  | some n => toFixed2 n
  | none => ""

/-- `createTransactionKey` (src/index.js lines 195–211): join date,
amount and `description || memo || ''` with `'|'`, lowercase the whole
string and trim its two ends. -/
def createTransactionKey (t : Transaction) : String :=
  jsTrim (jsToLowerCase (keyDateStr t ++ "|" ++ keyAmountStr t ++ "|" ++
    (if t.description ≠ "" then t.description else t.memo)))

/-! ## The idempotent ledger store (`processed.csv`)

A persisted row holds `date, amount, category, accountId` followed by the
extra columns of the source record (here: `description`, `memo`) and the
`accountName` set by the engine (src/index.js lines 381–405).  The tabular
codec (`escapeCsvField` on write, csv-parse with the `CSV_PARSE_OPTIONS`
of lines 143–151 on read) round-trips a quoted cell verbatim and returns
an unquoted cell trimmed (`trim: true` applies only outside quotes); a
read-back cell is therefore `readCell` of the written value. -/

/-- `escapeCsvField`'s quoting condition (src/index.js line 136). -/
def needsQuoting (s : String) : Bool :=
  s.data.any (fun c => c = ',' || c = '"' || c = '\n')

/-- `escapeCsvField` (src/index.js lines 133–140), on a string field. -/
def escapeCsvField (s : String) : String :=
  if needsQuoting s then
    "\"" ++ ⟨s.data.flatMap (fun c => if c = '"' then ['"', '"'] else [c])⟩ ++ "\""
  else s

/-- What csv-parse hands back for a cell that was written with
`escapeCsvField`: quoted cells are restored verbatim, unquoted cells are
trimmed by the `trim: true` parse option. -/
def readCell (v : String) : String :=
  if needsQuoting v then v else jsTrim v

/-- A persisted store row, by column. -/
structure StoreRow where
  date : String
  amount : String
  category : String
  accountId : String
  description : String
  memo : String
  accountName : String
deriving DecidableEq, Repr

/-- The row appended for a categorized transaction (src/index.js lines
378–405): `date.toISOString()` or `''`, `String(amount)`, the never-set
`category` as `''`, the oracle's account id, the preserved extra fields,
and the resolved account name. -/
def persistRow (t : Transaction) (accountId accountName : String) : StoreRow :=
  { date := t.date.getD ""
  , amount := match t.amount with
      | some n => intToDecString n
      | none => ""
  , category := ""
  , accountId := accountId
  , description := t.description
  , memo := t.memo
  , accountName := accountName }

/-- Rebuilding a transaction from a parsed store row (src/index.js lines
222–228): `new Date(record.date)` re-parses the persisted ISO instant
(yielding the same instant, modelled as the same string), and
`parseFloat(record.amount)` re-parses the amount; an empty cell is falsy
and maps to null. -/
def reloadedTransaction (r : StoreRow) : Transaction :=
  { date := if readCell r.date = "" then none else some (readCell r.date)
  , amount := if readCell r.amount = "" then none else jsParseNumber (readCell r.amount)
  , description := readCell r.description
  , memo := readCell r.memo }

/-- `loadExistingKeys` (src/index.js lines 219–231): parse the persisted
store and derive each row's idempotency key. -/
def loadExistingKeys (rows : List StoreRow) : List String :=
  rows.map (fun r => createTransactionKey (reloadedTransaction r))

/-- A cell survives the write/read cycle unchanged. -/
def cellStable (v : String) : Prop := readCell v = v

instance (v : String) : Decidable (cellStable v) :=
  inferInstanceAs (Decidable (_ = _))

/-- Hypotheses under which a transaction survives persist-and-reload:
its cells are unchanged by the codec (true of every field the input CSV
parser itself produced with `trim: true` and no quoted padding), and a
present date is a nonempty ISO instant. -/
def RoundTrips (t : Transaction) : Prop :=
  cellStable t.description ∧ cellStable t.memo ∧
    cellStable (t.date.getD "x") ∧ t.date ≠ some ""

instance (t : Transaction) : Decidable (RoundTrips t) :=
  inferInstanceAs (Decidable (_ ∧ _ ∧ _ ∧ _))

/-! ## The categorization engine loop (`processTransactions`)

The two oracle calls, collapsed over a transaction, yield the final
account id (the second call's answer when a clarifying question was
asked); the loop is parameterized by that collapse. -/

/-- Mutable state of the loop: rows appended to `processed.csv` during
this run, and the `processedTransactions` key set (insertion order). -/
structure RunState where
  rows : List StoreRow
  keys : List String
deriving DecidableEq, Repr

/-- The `for (const transaction of transactions)` loop of
`processTransactions` (src/index.js lines 234–407): skip when the key is
known, otherwise categorize, resolve the account name via
`getFullAccountName`, append one row and record the key. -/
def processTransactionsRun (cat : Transaction → String) :
    RunState → List Transaction → RunState
  | st, [] => st
  | st, t :: rest =>
    if createTransactionKey t ∈ st.keys then processTransactionsRun cat st rest
    else
      processTransactionsRun cat
        { rows := st.rows ++ [persistRow t (cat t) (getFullAccountName (cat t))]
        , keys := st.keys ++ [createTransactionKey t] } rest

/-- A whole `processTransactions` invocation over an existing store:
derive the key set from the persisted rows, then run the loop.  The
resulting store file is `existingRows ++ (run …).rows`. -/
def runPipeline (cat : Transaction → String) (existingRows : List StoreRow)
    (inputs : List Transaction) : RunState :=
  processTransactionsRun cat { rows := [], keys := loadExistingKeys existingRows } inputs

/-! ## The clarifying-question step of the categorization engine
(src/index.js lines 243–343)

The first oracle call returns a tentative account name/id and a list of
candidate questions; when that list is nonempty the engine shows exactly
`questions[0]` to the human answer source and issues a second oracle call
whose answer replaces the tentative guess.  Both collaborators are
parameters. -/

structure OracleQuestion where
  thoughtfulQuestion : String
  multipleChoiceOptions : List String
deriving DecidableEq, Repr

/-- The schema of the first `generateObject` call (lines 244–251). -/
structure OracleResponse where
  accountName : String
  accountId : String
  questions : List OracleQuestion
deriving DecidableEq, Repr

/-- The schema of the second `generateObject` call (lines 325–328). -/
structure Categorization where
  accountName : String
  accountId : String
deriving DecidableEq, Repr

/-- The per-transaction decision step (lines 273–343): returns the list
of questions presented to the human answer source, and the final
account name/id pair.  `ask` is the human answer source; `oracle2` is
the second oracle call as a function of the chosen answer. -/
def categorizeDecision (o1 : OracleResponse) (ask : OracleQuestion → String)
    (oracle2 : String → Categorization) : List OracleQuestion × (String × String) :=
  match o1.questions with
  | [] => ([], (o1.accountName, o1.accountId))
  | q :: _ =>
    ([q], ((oracle2 (ask q)).accountName, (oracle2 (ask q)).accountId))

/-- The human answer selection (lines 309–319): a numeric reply `1..n`
picks the corresponding option, anything else is the trimmed free text. -/
def selectAnswer (q : OracleQuestion) (answer : String) : String :=
  match jsParseNumber answer with
  | some k =>
    if 1 ≤ k ∧ k ≤ q.multipleChoiceOptions.length then
      q.multipleChoiceOptions.getD (k - 1).toNat ""
    else jsTrim answer
  | none => jsTrim answer

/-! ## The statement aggregator (`generateStatementOfActivity`,
src/index.js lines 412–587)

Only the worksheet content is modelled (cell styling, column widths and
outline metadata go to the workbook sink).  The AI field identification
has already been applied: a record carries the parsed date and the parsed
amount.  The process runs in UTC, so `getFullYear()`/`getMonth()` agree
with the date's ISO string. -/

/-- A parsed row of the aggregated CSV: `new Date(record[dateField])`
(`none` models an Invalid Date), `parseFloat(record[amountField])`, the
`accountId` column and the description/memo columns. -/
structure ARecord where
  date : Option String
  amount : Rat
  accountId : String
  description : String
  memo : String
deriving DecidableEq, Repr

/-- The month bucket `${date.getFullYear()}-${pad2(date.getMonth()+1)}`
of a date, read off its ISO string (UTC, four-digit year): the characters
up to the second `'-'`. -/
def monthKeyOf (iso : String) : String :=
  ⟨iso.data.takeWhile (fun c => c ≠ '-') ++
    '-' :: ((iso.data.dropWhile (fun c => c ≠ '-')).drop 1).takeWhile (fun c => c ≠ '-')⟩

/-- One entry of `transactionsByAccount` (lines 441–446). -/
structure BTxn where
  date : String
  amount : Rat
  description : String
  monthKey : String
deriving DecidableEq, Repr

/-- The grouping state built by the `records.forEach` loop (lines
426–456): the insertion-ordered month set, `monthlyTotals` and
`transactionsByAccount` (absent object keys are the default values). -/
structure Buckets where
  months : List String
  totals : String → String → Rat
  byAccount : String → List BTxn

def initBuckets : Buckets :=
  { months := [], totals := fun _ _ => 0, byAccount := fun _ => [] }

/-- Faults of the aggregation run.  `malformedDate` models the
`RangeError` thrown by `date.toISOString()` on an Invalid Date (line
442), the spec's `MalformedDateFault`; `noTransactions` models the throw
at lines 417–419. -/
inductive AggFault where
  | noTransactions
  | malformedDate
deriving DecidableEq, Repr

/-- One iteration of the `records.forEach` grouping loop (lines
430–456).  A record whose date failed to parse aborts the run: the
month-key interpolation would produce `"NaN-NaN"`, but
`date.toISOString()` throws before the record is stored, and the
exception propagates out of `generateStatementOfActivity`. -/
def bucketStep (b : Buckets) (r : ARecord) : Except AggFault Buckets :=
  match r.date with
  | none => .error .malformedDate
  | some d =>
    .ok { months := if monthKeyOf d ∈ b.months then b.months else b.months ++ [monthKeyOf d]
        , totals := fun m a =>
            if m = monthKeyOf d ∧ a = r.accountId then b.totals m a + r.amount / 100
            else b.totals m a
        , byAccount := fun a =>
            if a = r.accountId then
              b.byAccount a ++
                [{ date := dateOnly d
                 , amount := r.amount / 100
                 , description := if r.description ≠ "" then r.description else r.memo
                 , monthKey := monthKeyOf d }]
            else b.byAccount a }

def bucketRecords : Buckets → List ARecord → Except AggFault Buckets
  | b, [] => .ok b
  | b, r :: rest =>
    match bucketStep b r with
    | .error e => .error e
    | .ok b' => bucketRecords b' rest

/-- Lexicographic comparison of character lists, the order JS
`Array.prototype.sort` uses on strings. -/
def charListLeb : List Char → List Char → Bool
  | [], _ => true
  | _ :: _, [] => false
  | c :: cs, d :: ds => if c = d then charListLeb cs ds else decide (c < d)

def strLeb (a b : String) : Bool := charListLeb a.data b.data

def insertSorted (s : String) : List String → List String
  | [] => [s]
  | t :: rest => if strLeb s t then s :: t :: rest else t :: insertSorted s rest

/-- `Array.from(sortedMonths).sort()` (line 458): the distinct months in
ascending lexicographic order. -/
def sortStrings (l : List String) : List String := l.foldr insertSorted []

/-- `'  '.repeat(level)`-style indentation of account labels. -/
def indentStr (level : Nat) : String := ⟨List.replicate (2 * level) ' '⟩

/-- One worksheet row of the statement, by kind.  Month-value cells keep
their `Rat` values; the header row keeps the month keys (the sheet shows
them through `toLocaleString`, a presentation concern). -/
inductive Row where
  | header (cells : List String)
  | sectionHeader (label : String)
  | summary (label accountId : String) (values : List Rat)
  | detail (label accountId date description : String) (values : List (Option Rat))
  | totalRow (label : String) (values : List Rat)
  | blank
  | netRow (values : List Rat)
deriving DecidableEq, Repr

mutual

/-- `addAccountRows` (src/index.js lines 474–546): emit the summary row
of the account (its monthly values summed over itself and all
sub-accounts by `sumAccount`), then, for a leaf, one detail row per
stored transaction with its amount placed in its own month column, then
recurse into the sub-accounts.  The `fullName`/`startRow` bookkeeping of
the source is presentation-only and not part of the emitted content.  A
detail amount is placed at the column whose month equals the
transaction's `monthKey`; the months list is duplicate-free, so this
matches the source's `findIndex` placement. -/
def addAccountRows (B : Buckets) (months : List String) (level : Nat) :
    AccountNode → List Row × List Rat
  | .node i n subs =>
    (Row.summary (indentStr level ++ n) i
        (months.map (fun m => sumAccount B m (.node i n subs))) ::
      ((if subs.isEmpty then
          (B.byAccount i).map (fun tr =>
            Row.detail (indentStr (level + 1) ++ n) i tr.date tr.description
              (months.map (fun m => if m = tr.monthKey then some tr.amount else none)))
        else []) ++
        addAccountRowsList B months (level + 1) subs),
      months.map (fun m => sumAccount B m (.node i n subs)))

def addAccountRowsList (B : Buckets) (months : List String) (level : Nat) :
    List AccountNode → List Row
  | [] => []
  | a :: rest =>
    (addAccountRows B months level a).1 ++ addAccountRowsList B months level rest

/-- The `sumAccount` closure (lines 484–495): the month's total of the
account and, recursively, of all sub-accounts.  `if (monthData[acc.id])`
skips falsy entries, i.e. absent keys and exact zeroes. -/
def sumAccount (B : Buckets) (m : String) : AccountNode → Rat
  | .node i _ subs =>
    (if B.totals m i = 0 then 0 else B.totals m i) + sumAccountList B m subs

def sumAccountList (B : Buckets) (m : String) : List AccountNode → Rat
  | [] => 0
  | a :: rest => sumAccount B m a + sumAccountList B m rest

end

/-- Assembly of the worksheet rows (lines 548–587): header, INCOME
section with the income subtree, Total Income, blank, EXPENSES section
with the expenses subtree, Total Expenses, blank, and the Net Income row
subtracting expense totals from income totals per month column. -/
def buildStatementRows (B : Buckets) : List Row :=
  Row.header (["Account", "Account ID", "Date", "Description"] ++ sortStrings B.months) ::
    Row.sectionHeader "INCOME" ::
    ((addAccountRows B (sortStrings B.months) 1 incomeRoot).1 ++
      Row.totalRow "Total Income" (addAccountRows B (sortStrings B.months) 1 incomeRoot).2 ::
      Row.blank ::
      Row.sectionHeader "EXPENSES" ::
      ((addAccountRows B (sortStrings B.months) 1 expensesRoot).1 ++
        [Row.totalRow "Total Expenses" (addAccountRows B (sortStrings B.months) 1 expensesRoot).2,
         Row.blank,
         Row.netRow (List.zipWith (fun a b => a - b)
           (addAccountRows B (sortStrings B.months) 1 incomeRoot).2
           (addAccountRows B (sortStrings B.months) 1 expensesRoot).2)]))

/-- `generateStatementOfActivity` (lines 412–587), up to the workbook
sink: fail on an empty record set, group the records (failing hard on an
unparseable date), then assemble the rows. -/
def generateStatementOfActivity (records : List ARecord) : Except AggFault (List Row) :=
  if records = [] then .error .noTransactions
  else (bucketRecords initBuckets records).map buildStatementRows

/-! Reference sums used to state the rollup properties. -/

/-- The calendar month a record is bucketed into. -/
def recMonth (r : ARecord) : String := monthKeyOf (r.date.getD "")

/-- Sum of the raw amounts of the records of one account in one month. -/
def monthAccountSum (records : List ARecord) (m a : String) : Rat :=
  ((records.filter (fun r => recMonth r = m ∧ r.accountId = a)).map ARecord.amount).sum

/-- Sum of the raw amounts of the records of a whole subtree in one
month: the recursive sum over the node and all its descendants. -/
def subtreeMonthSum (records : List ARecord) (n : AccountNode) (m : String) : Rat :=
  ((records.filter (fun r => recMonth r = m ∧ r.accountId ∈ subtreeIds n)).map
    ARecord.amount).sum

/-! # Theorems

Supporting lemmas first, then the claim theorems with their witnesses. -/

/-! ## Round-trip lemmas for the decimal codec and trimming -/

theorem digitVal_digitChar {d : Nat} (h : d < 10) :
    digitVal (digitChar d) = d := by
  interval_cases d <;> rfl

theorem isDigitChar_digitChar (d : Nat) : isDigitChar (digitChar d) = true := by
  match d with
  | 0 | 1 | 2 | 3 | 4 | 5 | 6 | 7 | 8 => rfl
  | n + 9 => rfl

theorem parseDigits_append_singleton (l : List Char) (c : Char) :
    parseDigits (l ++ [c]) = parseDigits l * 10 + digitVal c := by
  simp [parseDigits, List.foldl_append]

theorem parseDigits_natDecDigitsAux :
    ∀ fuel n, n ≤ fuel → parseDigits (natDecDigitsAux fuel n) = n := by
  intro fuel
  induction fuel with
  | zero =>
    intro n h
    interval_cases n
    rfl
  | succ fuel ih =>
    intro n h
    rw [natDecDigitsAux]
    split
    · next h10 =>
      show parseDigits [digitChar n] = n
      simpa [parseDigits] using digitVal_digitChar h10
    · next h10 =>
      rw [parseDigits_append_singleton, ih (n / 10) (by omega),
        digitVal_digitChar (Nat.mod_lt n (by omega))]
      omega

theorem parseDigits_natDecDigits (n : Nat) :
    parseDigits (natDecDigits n) = n :=
  parseDigits_natDecDigitsAux n n le_rfl

theorem natDecDigitsAux_all_digits :
    ∀ fuel n, (natDecDigitsAux fuel n).all isDigitChar = true := by
  intro fuel
  induction fuel with
  | zero => intro n; simp [natDecDigitsAux, isDigitChar_digitChar]
  | succ fuel ih =>
    intro n
    rw [natDecDigitsAux]
    split
    · simp [isDigitChar_digitChar]
    · simp [List.all_append, ih, isDigitChar_digitChar]

theorem natDecDigitsAux_ne_nil (fuel n : Nat) : natDecDigitsAux fuel n ≠ [] := by
  cases fuel with
  | zero => simp [natDecDigitsAux]
  | succ fuel =>
    rw [natDecDigitsAux]
    split
    · simp
    · simp

theorem isDigitChar_ne_minus {c : Char} (h : isDigitChar c = true) : c ≠ '-' := by
  rintro rfl
  simp [isDigitChar] at h

/-- JS `parseFloat` inverts JS `String(·)` on integer values. -/
theorem jsParseNumber_intToDecString (n : Int) :
    jsParseNumber (intToDecString n) = some n := by
  by_cases hn : n < 0
  · have : (intToDecString n).data = '-' :: natDecDigits n.natAbs := by
      simp [intToDecString, hn]
    rw [jsParseNumber, this]
    simp only [reduceIte, natDecDigits]
    rw [if_pos ⟨natDecDigitsAux_ne_nil _ _, natDecDigitsAux_all_digits _ _⟩]
    rw [parseDigits_natDecDigitsAux _ _ le_rfl]
    congr 1
    omega
  · have hd : (intToDecString n).data = natDecDigits n.toNat := by
      simp [intToDecString, hn]
    obtain ⟨c, rest, hcr⟩ : ∃ c rest, natDecDigits n.toNat = c :: rest := by
      cases h : natDecDigits n.toNat with
      | nil => exact absurd h (natDecDigitsAux_ne_nil _ _)
      | cons c rest => exact ⟨c, rest, rfl⟩
    have hall : (c :: rest).all isDigitChar = true := hcr ▸ natDecDigitsAux_all_digits _ _
    have hc : isDigitChar c = true := by
      have := hall
      simp [List.all_cons] at this
      exact this.1
    rw [jsParseNumber, hd, hcr]
    show (if c = '-' then
        if rest ≠ [] ∧ rest.all isDigitChar then some (-(parseDigits rest : Int)) else none
      else if (c :: rest).all isDigitChar then some (parseDigits (c :: rest) : Int)
      else none) = some n
    rw [if_neg (isDigitChar_ne_minus hc), if_pos hall, ← hcr, parseDigits_natDecDigits]
    congr 1
    omega

theorem dropWhile_eq_self_of_all {p : Char → Bool} :
    ∀ l : List Char, (∀ c ∈ l, p c = false) → l.dropWhile p = l
  | [], _ => rfl
  | c :: t, h => by
    simp [List.dropWhile_cons, h c (List.mem_cons_self c t)]

theorem trimChars_eq_self {l : List Char} (h : ∀ c ∈ l, isJsWs c = false) :
    trimRightChars (trimLeftChars l) = l := by
  have h1 : trimLeftChars l = l := dropWhile_eq_self_of_all l h
  rw [h1, trimRightChars,
    dropWhile_eq_self_of_all l.reverse (fun c hc => h c (List.mem_reverse.mp hc)),
    List.reverse_reverse]

theorem jsTrim_eq_self {s : String} (h : ∀ c ∈ s.data, isJsWs c = false) :
    jsTrim s = s := by
  cases s with
  | mk data => exact congrArg String.mk (trimChars_eq_self h)

theorem isJsWs_eq_false_of_digit {c : Char} (h : isDigitChar c = true) :
    isJsWs c = false := by
  simp only [isDigitChar, Bool.and_eq_true, decide_eq_true_eq] at h
  simp only [isJsWs, Bool.or_eq_false_iff, decide_eq_false_iff_not]
  refine ⟨⟨⟨?_, ?_⟩, ?_⟩, ?_⟩ <;> rintro rfl <;> revert h <;> decide

theorem jsTrim_intToDecString (n : Int) :
    jsTrim (intToDecString n) = intToDecString n := by
  apply jsTrim_eq_self
  intro c hc
  by_cases hneg : n < 0
  · rw [intToDecString, if_pos hneg] at hc
    rcases List.mem_cons.mp hc with rfl | hc2
    · decide
    · exact isJsWs_eq_false_of_digit
        (by simpa using List.all_eq_true.mp (natDecDigitsAux_all_digits _ _) c hc2)
  · rw [intToDecString, if_neg hneg] at hc
    exact isJsWs_eq_false_of_digit
      (by simpa using List.all_eq_true.mp (natDecDigitsAux_all_digits _ _) c hc)

theorem cellStable_of_trim {v : String} (h : jsTrim v = v) : cellStable v := by
  unfold cellStable readCell
  split <;> simp [h]

theorem intToDecString_ne_empty (n : Int) : intToDecString n ≠ "" := by
  unfold intToDecString
  split
  · intro h
    have h2 : '-' :: natDecDigits n.natAbs = [] := congrArg String.data h
    simp at h2
  · intro h
    exact natDecDigitsAux_ne_nil _ _ (congrArg String.data h)

theorem reloadedTransaction_persistRow (t : Transaction)
    (h : RoundTrips t) (accountId accountName : String) :
    reloadedTransaction (persistRow t accountId accountName) = t := by
  obtain ⟨hdesc, hmemo, hdate⟩ := h
  cases t with
  | mk date amount description memo =>
    simp only [reloadedTransaction, persistRow, Transaction.mk.injEq]
    refine ⟨?_, ?_, hdesc, hmemo⟩
    · cases date with
      | none =>
        rw [if_pos (show readCell (Option.getD none "") = "" by decide)]
      | some d =>
        have hcs : readCell d = d := hdate.1
        have hne : d ≠ "" := fun e => hdate.2 (by rw [e])
        show (if readCell (Option.getD (some d) "") = "" then none
          else some (readCell (Option.getD (some d) ""))) = some d
        rw [Option.getD, hcs, if_neg hne]
    · cases amount with
      | none =>
        rw [if_pos (show readCell "" = "" by decide)]
      | some n =>
        have hcs : readCell (intToDecString n) = intToDecString n :=
          cellStable_of_trim (jsTrim_intToDecString n)
        show (if readCell (intToDecString n) = "" then none
          else jsParseNumber (readCell (intToDecString n))) = some n
        rw [hcs, if_neg (intToDecString_ne_empty n)]
        exact jsParseNumber_intToDecString n

/-! ## The account resolver -/

mutual

theorem findAccount_mem {accountId : String} :
    ∀ (a r : AccountNode), findAccount accountId a = some r → r ∈ allNodes a
  | .node i n subs, r, h => by
    rw [findAccount] at h
    rw [allNodes]
    split at h
    · cases h
      exact List.mem_cons_self _ _
    · exact List.mem_cons_of_mem _ (findAccountList_mem subs r h)

theorem findAccountList_mem {accountId : String} :
    ∀ (l : List AccountNode) (r : AccountNode),
      findAccountList accountId l = some r → r ∈ allNodesList l
  | [], r, h => by simp [findAccountList] at h
  | a :: rest, r, h => by
    rw [findAccountList] at h
    rw [allNodesList]
    cases hfa : findAccount accountId a with
    | some x =>
      rw [hfa] at h
      cases h
      exact List.mem_append_left _ (findAccount_mem a _ hfa)
    | none =>
      rw [hfa] at h
      exact List.mem_append_right _ (findAccountList_mem rest r h)

end

/-- Every account in the chart literal has a nonempty name. -/
theorem allChartNodes_name_ne_empty :
    ∀ n ∈ allChartNodes, n.name ≠ "" := by decide

/-- What `getFullAccountName` returns on a resolvable id: just the node's
own name (the parent walk never proceeds, see `hierarchyParts`). -/
theorem getFullAccountName_of_found {accountId : String} {n : AccountNode}
    (h : findAccountInChart accountId = some n) :
    getFullAccountName accountId = n.name := by
  rw [getFullAccountName, h]
  rfl

/-- C1: the claim asserts that `getFullAccountName "5110"` is the full
root-to-node path `Expenses > Personnel Expenses > Salaries and Wages`.
The resolver does find the node named `Salaries and Wages`, and the
spec-side `fullPath` yields that path, but the code's parent walk reads a
nonexistent `parentId` property and stops immediately, so the function
returns only the node's own name — for every node below the top level the
computed name is not the ancestor path.  This is the divergence the spec
flags in §4.1. -/
theorem claimC1_full_name_is_not_path :
    getFullAccountName "5110" = "Salaries and Wages" ∧
    (findAccountInChart "5110").map AccountNode.name = some "Salaries and Wages" ∧
    fullPathSpec "5110" = some "Expenses > Personnel Expenses > Salaries and Wages" ∧
    getFullAccountName "5110" ≠ "Expenses > Personnel Expenses > Salaries and Wages" := by
  refine ⟨by decide, by decide, by decide, by decide⟩

/-- C8: resolving an id absent from the chart yields `none` (not-found)
— no default node and no error — and in the engine the not-found outcome
stays observable: the persisted `accountName` is `""` exactly when the id
did not resolve, never a fabricated nonempty name. -/
theorem claimC8_absent_id_not_found :
    findAccountInChart "9999" = none ∧
    (∀ accountId, getFullAccountName accountId = "" ↔
      findAccountInChart accountId = none) := by
  refine ⟨by rfl, fun accountId => ?_⟩
  constructor
  · intro h
    cases hf : findAccountInChart accountId with
    | none => rfl
    | some n =>
      exact absurd (getFullAccountName_of_found hf ▸ h)
        (allChartNodes_name_ne_empty n (findAccountList_mem chartRoots n hf))
  · intro h
    rw [getFullAccountName, h]

/-! ## The one-question cap of the categorization engine -/

/-- C6: whenever the first oracle call proposes one or more clarifying
questions (in particular three), the engine presents exactly the first to
the human answer source — one interactive round-trip — and the second
oracle call's name/id replace the first call's tentative guess, whatever
it was. -/
theorem claimC6_first_question_only (o1 : OracleResponse)
    (ask : OracleQuestion → String) (oracle2 : String → Categorization)
    (q : OracleQuestion) (qs : List OracleQuestion)
    (h : o1.questions = q :: qs) :
    (categorizeDecision o1 ask oracle2).1 = [q] ∧
    (categorizeDecision o1 ask oracle2).1.length = 1 ∧
    (categorizeDecision o1 ask oracle2).2 =
      ((oracle2 (ask q)).accountName, (oracle2 (ask q)).accountId) := by
  rw [categorizeDecision, h]
  exact ⟨rfl, rfl, rfl⟩

/-- Witness for C6: an oracle response with three candidate questions and
a tentative guess `5950`; only the first question is shown and the second
call's `5430` replaces the guess. -/
theorem claimC6_witness :
    (({ accountName := "Miscellaneous or Other Operating Expenses"
      , accountId := "5950"
      , questions :=
          [ { thoughtfulQuestion := "Is this hosting?", multipleChoiceOptions := ["Yes", "No"] }
          , { thoughtfulQuestion := "Which vendor?", multipleChoiceOptions := ["AWS", "Hetzner"] }
          , { thoughtfulQuestion := "One-off or recurring?", multipleChoiceOptions := ["One-off", "Recurring"] } ]
      } : OracleResponse).questions.length = 3) ∧
    (categorizeDecision
      { accountName := "Miscellaneous or Other Operating Expenses"
      , accountId := "5950"
      , questions :=
          [ { thoughtfulQuestion := "Is this hosting?", multipleChoiceOptions := ["Yes", "No"] }
          , { thoughtfulQuestion := "Which vendor?", multipleChoiceOptions := ["AWS", "Hetzner"] }
          , { thoughtfulQuestion := "One-off or recurring?", multipleChoiceOptions := ["One-off", "Recurring"] } ]
      }
      (fun _ => "Yes")
      (fun _ => { accountName := "Servers & Hosting", accountId := "5430" })).1 =
        [{ thoughtfulQuestion := "Is this hosting?", multipleChoiceOptions := ["Yes", "No"] }] ∧
    (categorizeDecision
      { accountName := "Miscellaneous or Other Operating Expenses"
      , accountId := "5950"
      , questions :=
          [ { thoughtfulQuestion := "Is this hosting?", multipleChoiceOptions := ["Yes", "No"] }
          , { thoughtfulQuestion := "Which vendor?", multipleChoiceOptions := ["AWS", "Hetzner"] }
          , { thoughtfulQuestion := "One-off or recurring?", multipleChoiceOptions := ["One-off", "Recurring"] } ]
      }
      (fun _ => "Yes")
      (fun _ => { accountName := "Servers & Hosting", accountId := "5430" })).2 =
        ("Servers & Hosting", "5430") := by
  refine ⟨by decide, ?_, ?_⟩
  · exact (claimC6_first_question_only _ _ _ _ _ rfl).1
  · exact (claimC6_first_question_only _ _ _ _ _ rfl).2.2

/-! ## Normalization properties of the idempotency key (C7) -/

theorem dropWhile_append_cons {p : Char → Bool} (c : Char) (hc : p c = false) :
    ∀ (u v : List Char), (u ++ c :: v).dropWhile p = u.dropWhile p ++ c :: v
  | [], v => by simp [List.dropWhile_cons, hc]
  | a :: u, v => by
    by_cases ha : p a
    · simp only [List.cons_append, List.dropWhile_cons, ha, if_true]
      exact dropWhile_append_cons c hc u v
    · simp [List.dropWhile_cons, ha]

theorem trimLeftChars_append_cons {c : Char} (hc : isJsWs c = false) (u v : List Char) :
    trimLeftChars (u ++ c :: v) = trimLeftChars u ++ c :: v :=
  dropWhile_append_cons c hc u v

theorem trimRightChars_append_cons {c : Char} (hc : isJsWs c = false) (u v : List Char) :
    trimRightChars (u ++ c :: v) = u ++ c :: trimRightChars v := by
  unfold trimRightChars
  rw [show (u ++ c :: v).reverse = v.reverse ++ c :: u.reverse by simp]
  rw [dropWhile_append_cons c hc]
  simp

/-- The computed key, decomposed: the lowered date part left-trimmed (the
whole key's left end), the lowered amount part intact, and the lowered
description right-trimmed (the whole key's right end).  The `'|'`
separators shield everything else from `trim`. -/
theorem createTransactionKey_decomp (t : Transaction) (h : t.description ≠ "") :
    createTransactionKey t =
      ⟨trimLeftChars ((keyDateStr t).data.map Char.toLower) ++
        '|' :: ((keyAmountStr t).data.map Char.toLower ++
          '|' :: trimRightChars (t.description.data.map Char.toLower))⟩ := by
  rw [createTransactionKey, if_pos h]
  have hdata : (keyDateStr t ++ "|" ++ keyAmountStr t ++ "|" ++ t.description).data
      = (keyDateStr t).data ++ '|' :: ((keyAmountStr t).data ++ '|' :: t.description.data) := by
    simp [String.data_append]
  show (⟨trimRightChars (trimLeftChars
      ((keyDateStr t ++ "|" ++ keyAmountStr t ++ "|" ++ t.description).data.map Char.toLower))⟩ : String) = _
  rw [hdata]
  simp only [List.map_append, List.map_cons]
  rw [show Char.toLower '|' = '|' from rfl]
  rw [trimLeftChars_append_cons (by decide)]
  rw [trimRightChars_append_cons (by decide)]
  rw [trimRightChars_append_cons (by decide)]

/-- C7 (amended): the idempotency key identifies two records with equal
date and amount whose nonempty descriptions agree up to letter case and
trailing whitespace; `trim` acts on the already-joined key, so only the
description's trailing end is normalized. -/
theorem claimC7_key_normalization (t1 t2 : Transaction)
    (hdate : t1.date = t2.date) (hamount : t1.amount = t2.amount)
    (h1 : t1.description ≠ "") (h2 : t2.description ≠ "")
    (hdesc : jsTrimEnd (jsToLowerCase t1.description) =
      jsTrimEnd (jsToLowerCase t2.description)) :
    createTransactionKey t1 = createTransactionKey t2 := by
  have hD : trimRightChars (t1.description.data.map Char.toLower) =
      trimRightChars (t2.description.data.map Char.toLower) :=
    congrArg String.data hdesc
  have hKD : keyDateStr t1 = keyDateStr t2 := by rw [keyDateStr, keyDateStr, hdate]
  have hKA : keyAmountStr t1 = keyAmountStr t2 := by rw [keyAmountStr, keyAmountStr, hamount]
  rw [createTransactionKey_decomp t1 h1, createTransactionKey_decomp t2 h2, hD, hKD, hKA]

/-- Counterexample for C7 as stated: two records with identical date and
amount whose descriptions differ only in (internal) whitespace get
different keys — `trim` never touches whitespace inside the description. -/
theorem claimC7_counterexample :
    (⟨some "2024-01-01T00:00:00.000Z", some 1500, "Pizza Palace", ""⟩ : Transaction).date =
      (⟨some "2024-01-01T00:00:00.000Z", some 1500, "Pizza  Palace", ""⟩ : Transaction).date ∧
    (⟨some "2024-01-01T00:00:00.000Z", some 1500, "Pizza Palace", ""⟩ : Transaction).amount =
      (⟨some "2024-01-01T00:00:00.000Z", some 1500, "Pizza  Palace", ""⟩ : Transaction).amount ∧
    ("Pizza Palace".data.filter (fun c => !(isJsWs c)) =
      "Pizza  Palace".data.filter (fun c => !(isJsWs c))) ∧
    createTransactionKey ⟨some "2024-01-01T00:00:00.000Z", some 1500, "Pizza Palace", ""⟩ ≠
      createTransactionKey ⟨some "2024-01-01T00:00:00.000Z", some 1500, "Pizza  Palace", ""⟩ := by
  refine ⟨rfl, rfl, by decide, by decide⟩

/-- Witness for C7's amended statement: `"Pizza Palace"` and
`"PIZZA Palace  "` (case change plus trailing blanks) with equal date and
amount give the same key. -/
theorem claimC7_witness :
    jsTrimEnd (jsToLowerCase "Pizza Palace") = jsTrimEnd (jsToLowerCase "PIZZA Palace  ") ∧
    createTransactionKey ⟨some "2024-01-01T00:00:00.000Z", some 1500, "Pizza Palace", ""⟩ =
      createTransactionKey ⟨some "2024-01-01T00:00:00.000Z", some 1500, "PIZZA Palace  ", ""⟩ :=
  ⟨by decide, claimC7_key_normalization _ _ rfl rfl (by decide) (by decide) (by decide)⟩

/-! ## Exactly-once behavior of the categorization run (C9, C2) -/

/-- Invariant of the processing loop: the run appends exactly one row per
input transaction whose key was new, records exactly those keys after the
existing ones, never appends the same key twice, and leaves every input
transaction's key present at the end. -/
theorem processTransactionsRun_spec (cat : Transaction → String) (ts : List Transaction) :
    ∀ st : RunState,
      ∃ appended : List Transaction,
        (processTransactionsRun cat st ts).rows =
          st.rows ++ appended.map (fun t => persistRow t (cat t) (getFullAccountName (cat t))) ∧
        (processTransactionsRun cat st ts).keys =
          st.keys ++ appended.map createTransactionKey ∧
        (appended.map createTransactionKey).Nodup ∧
        (∀ t ∈ appended, createTransactionKey t ∉ st.keys) ∧
        (∀ t ∈ appended, t ∈ ts) ∧
        (∀ t ∈ ts, createTransactionKey t ∈ (processTransactionsRun cat st ts).keys) := by
  induction ts with
  | nil =>
    intro st
    exact ⟨[], by simp [processTransactionsRun], by simp [processTransactionsRun],
      List.nodup_nil, by simp, by simp, by simp⟩
  | cons t rest ih =>
    intro st
    by_cases hk : createTransactionKey t ∈ st.keys
    · obtain ⟨app, h1, h2, h3, h4, h5, h6⟩ := ih st
      rw [show processTransactionsRun cat st (t :: rest) = processTransactionsRun cat st rest by
        rw [processTransactionsRun, if_pos hk]]
      refine ⟨app, h1, h2, h3, h4, fun u hu => List.mem_cons_of_mem _ (h5 u hu), ?_⟩
      intro u hu
      rcases List.mem_cons.mp hu with rfl | hu2
      · rw [h2]
        exact List.mem_append_left _ hk
      · exact h6 u hu2
    · obtain ⟨app, h1, h2, h3, h4, h5, h6⟩ :=
        ih { rows := st.rows ++ [persistRow t (cat t) (getFullAccountName (cat t))]
           , keys := st.keys ++ [createTransactionKey t] }
      rw [show processTransactionsRun cat st (t :: rest) =
          processTransactionsRun cat
            { rows := st.rows ++ [persistRow t (cat t) (getFullAccountName (cat t))]
            , keys := st.keys ++ [createTransactionKey t] } rest by
        rw [processTransactionsRun, if_neg hk]]
      refine ⟨t :: app, ?_, ?_, ?_, ?_, ?_, ?_⟩
      · rw [h1]
        simp
      · rw [h2]
        simp
      · rw [List.map_cons, List.nodup_cons]
        refine ⟨fun hmem => ?_, h3⟩
        obtain ⟨u, hu, hku⟩ := List.mem_map.mp hmem
        exact h4 u hu (hku ▸ List.mem_append_right _ (List.mem_singleton_self _))
      · intro u hu
        rcases List.mem_cons.mp hu with rfl | hu2
        · exact hk
        · exact fun hmem => h4 u hu2 (List.mem_append_left _ hmem)
      · intro u hu
        rcases List.mem_cons.mp hu with rfl | hu2
        · exact List.mem_cons_self _ _
        · exact List.mem_cons_of_mem _ (h5 u hu2)
      · intro u hu
        rcases List.mem_cons.mp hu with rfl | hu2
        · rw [h2]
          exact List.mem_append_left _ (List.mem_append_right _ (List.mem_singleton_self _))
        · exact h6 u hu2

/-- C9 (amended): restarting against a store with key set `ks` skips
exactly the transactions whose derived key is in `ks`, appends one row
per novel key — the same key is never appended twice (no double-billing
at key granularity) — and afterwards every input transaction's key is
present.  Distinct transactions that derive the same key are however
conflated: only the first is appended (see the counterexample). -/
theorem claimC9_exactly_once_per_key (cat : Transaction → String)
    (ks : List String) (ts : List Transaction) :
    ∃ appended : List Transaction,
      (processTransactionsRun cat { rows := [], keys := ks } ts).rows =
        appended.map (fun t => persistRow t (cat t) (getFullAccountName (cat t))) ∧
      (processTransactionsRun cat { rows := [], keys := ks } ts).keys =
        ks ++ appended.map createTransactionKey ∧
      (appended.map createTransactionKey).Nodup ∧
      (∀ t ∈ appended, createTransactionKey t ∉ ks) ∧
      (∀ t ∈ appended, t ∈ ts) ∧
      (∀ t ∈ ts, createTransactionKey t ∈
        (processTransactionsRun cat { rows := [], keys := ks } ts).keys) := by
  obtain ⟨app, h1, h2, h3, h4, h5, h6⟩ :=
    processTransactionsRun_spec cat ts { rows := [], keys := ks }
  exact ⟨app, by simpa using h1, h2, h3, h4, h5, h6⟩

/-- Counterexample for C9 as stated: two distinct input transactions
(descriptions `"Pizza"` and `"PIZZA"`, different content) are conflated
into a single store row — the second is skipped even though it was never
appended, so an input transaction is silently lost. -/
theorem claimC9_conflation_counterexample :
    (⟨some "2024-05-01T00:00:00.000Z", some (-2500), "Pizza", ""⟩ : Transaction) ≠
      ⟨some "2024-05-01T00:00:00.000Z", some (-2500), "PIZZA", ""⟩ ∧
    (runPipeline (fun _ => "5840") []
      [⟨some "2024-05-01T00:00:00.000Z", some (-2500), "Pizza", ""⟩,
       ⟨some "2024-05-01T00:00:00.000Z", some (-2500), "PIZZA", ""⟩]).rows.length = 1 :=
  ⟨by decide, by decide⟩

/-- A run in which every input's key is already known changes nothing. -/
theorem processTransactionsRun_all_known (cat : Transaction → String) :
    ∀ (ts : List Transaction) (st : RunState),
      (∀ t ∈ ts, createTransactionKey t ∈ st.keys) →
      processTransactionsRun cat st ts = st
  | [], st, _ => rfl
  | t :: rest, st, h => by
    rw [processTransactionsRun, if_pos (h t (List.mem_cons_self _ _))]
    exact processTransactionsRun_all_known cat rest st
      (fun u hu => h u (List.mem_cons_of_mem _ hu))

/-- C2 (amended): running the pipeline a second time over the same input
with the store produced by the first run appends no rows and leaves the
key set untouched (hence the store file is unchanged), provided every
input's `description`/`memo` cells survive the store codec (no
leading/trailing whitespace in unquoted cells) — then each persisted
row's reload key equals the fresh input key and every transaction is
skipped. -/
theorem claimC2_second_run_is_noop (cat1 cat2 : Transaction → String)
    (ts : List Transaction) (h : ∀ t ∈ ts, RoundTrips t) :
    (runPipeline cat2 (runPipeline cat1 [] ts).rows ts).rows = [] ∧
    (runPipeline cat2 (runPipeline cat1 [] ts).rows ts).keys =
      loadExistingKeys (runPipeline cat1 [] ts).rows := by
  obtain ⟨app, h1, h2, _h3, _h4, h5, h6⟩ :=
    processTransactionsRun_spec cat1 ts { rows := [], keys := loadExistingKeys [] }
  have hload : loadExistingKeys (runPipeline cat1 [] ts).rows =
      app.map createTransactionKey := by
    rw [runPipeline]
    rw [loadExistingKeys, h1]
    simp only [List.nil_append, List.map_map]
    exact List.map_congr_left (fun u hu => by
      show createTransactionKey (reloadedTransaction (persistRow u _ _)) = _
      rw [reloadedTransaction_persistRow u (h u (h5 u hu))])
  have hkeys : ∀ t ∈ ts, createTransactionKey t ∈
      loadExistingKeys (runPipeline cat1 [] ts).rows := by
    intro u hu
    rw [hload]
    have := h6 u hu
    rw [h2] at this
    simpa [loadExistingKeys] using this
  have hrun : processTransactionsRun cat2
      { rows := [], keys := loadExistingKeys (runPipeline cat1 [] ts).rows } ts =
      { rows := [], keys := loadExistingKeys (runPipeline cat1 [] ts).rows } :=
    processTransactionsRun_all_known cat2 ts _ hkeys
  rw [runPipeline, hrun]
  exact ⟨rfl, rfl⟩

/-- Witness for C2's amended statement: a two-transaction input with
codec-stable fields; the second run appends nothing. -/
theorem claimC2_witness :
    (∀ t ∈ ([⟨some "2024-01-05T00:00:00.000Z", some (-1500), "Pizza Palace", ""⟩,
             ⟨some "2024-02-01T00:00:00.000Z", some 30000, "Grant", "wire memo"⟩] :
        List Transaction), RoundTrips t) ∧
    (runPipeline (fun _ => "4100")
      (runPipeline (fun _ => "5840") []
        [⟨some "2024-01-05T00:00:00.000Z", some (-1500), "Pizza Palace", ""⟩,
         ⟨some "2024-02-01T00:00:00.000Z", some 30000, "Grant", "wire memo"⟩]).rows
      [⟨some "2024-01-05T00:00:00.000Z", some (-1500), "Pizza Palace", ""⟩,
       ⟨some "2024-02-01T00:00:00.000Z", some 30000, "Grant", "wire memo"⟩]).rows = [] :=
  ⟨by decide, (claimC2_second_run_is_noop _ _ _ (by decide)).1⟩

/-- Counterexample for C2 as stated: a description with leading
whitespace (as a quoted CSV cell yields) round-trips through the store
codec to a different string — the unquoted written cell gets trimmed on
reload — so its reload key differs from the fresh key and the second run
appends the same transaction again instead of appending zero rows. -/
theorem claimC2_counterexample :
    loadExistingKeys (runPipeline (fun _ => "5840") []
        [⟨some "2024-01-05T00:00:00.000Z", some (-1500), " Pizza", ""⟩]).rows ≠
      [createTransactionKey ⟨some "2024-01-05T00:00:00.000Z", some (-1500), " Pizza", ""⟩] ∧
    (runPipeline (fun _ => "5840")
      (runPipeline (fun _ => "5840") []
        [⟨some "2024-01-05T00:00:00.000Z", some (-1500), " Pizza", ""⟩]).rows
      [⟨some "2024-01-05T00:00:00.000Z", some (-1500), " Pizza", ""⟩]).rows.length = 1 :=
  ⟨by decide, by decide⟩

/-! ## Rollup arithmetic of the aggregator -/

theorem monthAccountSum_cons (r : ARecord) (rest : List ARecord) (m a : String) :
    monthAccountSum (r :: rest) m a =
      (if recMonth r = m ∧ r.accountId = a then r.amount else 0) +
        monthAccountSum rest m a := by
  rw [monthAccountSum, monthAccountSum, List.filter_cons]
  by_cases hp : recMonth r = m ∧ r.accountId = a
  · simp [hp]
  · simp [hp]

/-- `monthlyTotals[m][a]` after grouping is the sum of the raw amounts of
the records in that month and account, divided by 100. -/
theorem bucketRecords_totals :
    ∀ (records : List ARecord) (b B : Buckets),
      bucketRecords b records = .ok B →
      ∀ m a, B.totals m a = b.totals m a + monthAccountSum records m a / 100
  | [], b, B, h, m, a => by
    injection h with h
    subst h
    simp [monthAccountSum]
  | r :: rest, b, B, h, m, a => by
    rw [bucketRecords] at h
    cases hd : r.date with
    | none =>
      rw [bucketStep, hd] at h
      simp at h
    | some d =>
      rw [bucketStep, hd] at h
      have ih := bucketRecords_totals rest _ B h m a
      rw [ih]
      show (if m = monthKeyOf d ∧ a = r.accountId
          then b.totals m a + r.amount / 100 else b.totals m a) +
          monthAccountSum rest m a / 100 =
        b.totals m a + monthAccountSum (r :: rest) m a / 100
      rw [monthAccountSum_cons]
      have hrm : recMonth r = monthKeyOf d := by rw [recMonth, hd]; rfl
      by_cases hc : m = monthKeyOf d ∧ a = r.accountId
      · rw [if_pos hc, if_pos ⟨by rw [hrm]; exact hc.1.symm, hc.2.symm⟩, add_div]
        ring
      · rw [if_neg hc, if_neg (fun hc2 => hc ⟨by rw [← hrm]; exact hc2.1.symm, hc2.2.symm⟩)]
        rw [zero_add]

mutual

theorem sumAccount_eq_sum (B : Buckets) (m : String) :
    ∀ a : AccountNode,
      sumAccount B m a = ((allNodes a).map (fun x => B.totals m x.id)).sum
  | .node i n subs => by
    rw [sumAccount, allNodes, List.map_cons, List.sum_cons,
      sumAccountList_eq_sum B m subs]
    congr 1
    show (if B.totals m i = 0 then 0 else B.totals m i) = B.totals m (AccountNode.node i n subs).id
    rw [AccountNode.id]
    split
    · next h => exact h.symm
    · rfl

theorem sumAccountList_eq_sum (B : Buckets) (m : String) :
    ∀ l : List AccountNode,
      sumAccountList B m l = ((allNodesList l).map (fun x => B.totals m x.id)).sum
  | [] => by simp [sumAccountList, allNodesList]
  | a :: rest => by
    rw [sumAccountList, allNodesList, List.map_append, List.sum_append,
      sumAccount_eq_sum B m a, sumAccountList_eq_sum B m rest]

end

theorem sum_filter_mem_cons (records : List ARecord) (m a : String) (ids : List String)
    (ha : a ∉ ids) :
    ((records.filter (fun r => recMonth r = m ∧ r.accountId ∈ a :: ids)).map
      ARecord.amount).sum =
      monthAccountSum records m a +
        ((records.filter (fun r => recMonth r = m ∧ r.accountId ∈ ids)).map
          ARecord.amount).sum := by
  induction records with
  | nil => simp [monthAccountSum]
  | cons r rs ih =>
    rw [List.filter_cons, List.filter_cons, monthAccountSum_cons]
    by_cases h1 : recMonth r = m
    · by_cases h2 : r.accountId = a
      · have h3 : (decide (recMonth r = m ∧ r.accountId ∈ a :: ids)) = true := by
          simp [h1, h2]
        have h4 : (decide (recMonth r = m ∧ r.accountId ∈ ids)) = true ↔ False := by
          simp [h2, ha]
        rw [h3, if_pos rfl, if_neg (fun hh => h4.mp hh), if_pos ⟨h1, h2⟩,
          List.map_cons, List.sum_cons, ih]
        ring
      · by_cases h3 : r.accountId ∈ ids
        · have h4 : (decide (recMonth r = m ∧ r.accountId ∈ a :: ids)) = true := by
            simp [h1, h3]
          have h5 : (decide (recMonth r = m ∧ r.accountId ∈ ids)) = true := by
            simp [h1, h3]
          rw [h4, if_pos rfl, h5, if_pos rfl, if_neg (fun hh => h2 hh.2),
            List.map_cons, List.sum_cons, List.map_cons, List.sum_cons, ih]
          ring
        · have h4 : (decide (recMonth r = m ∧ r.accountId ∈ a :: ids)) = true ↔ False := by
            simp [h2, h3]
          have h5 : (decide (recMonth r = m ∧ r.accountId ∈ ids)) = true ↔ False := by
            simp [h3]
          rw [if_neg (fun hh => h4.mp hh), if_neg (fun hh => h5.mp hh),
            if_neg (fun hh => h2 hh.2), ih]
          ring
    · have h4 : (decide (recMonth r = m ∧ r.accountId ∈ a :: ids)) = true ↔ False := by
        simp [h1]
      have h5 : (decide (recMonth r = m ∧ r.accountId ∈ ids)) = true ↔ False := by
        simp [h1]
      rw [if_neg (fun hh => h4.mp hh), if_neg (fun hh => h5.mp hh),
        if_neg (fun hh => h1 hh.1), ih]
      ring

theorem sum_monthAccountSum (records : List ARecord) (m : String) :
    ∀ ids : List String, ids.Nodup →
      (ids.map (fun a => monthAccountSum records m a)).sum =
        ((records.filter (fun r => recMonth r = m ∧ r.accountId ∈ ids)).map
          ARecord.amount).sum
  | [], _ => by
    have : records.filter (fun r => decide (recMonth r = m ∧ r.accountId ∈ ([] : List String))) = [] := by
      simp
    simp [this]
  | a :: ids, hnd => by
    obtain ⟨ha, hnd2⟩ := List.nodup_cons.mp hnd
    rw [List.map_cons, List.sum_cons, sum_monthAccountSum records m ids hnd2,
      sum_filter_mem_cons records m a ids ha]

/-- The monthly value `sumAccount` computes for an account equals the
recursive sum of the subtree's record amounts in that month, divided by
100 (the aggregator re-scales every parsed amount by `/ 100`). -/
theorem sumAccount_eq_subtreeMonthSum (records : List ARecord) (B : Buckets)
    (hB : bucketRecords initBuckets records = .ok B)
    (n : AccountNode) (hn : (subtreeIds n).Nodup) (m : String) :
    sumAccount B m n = subtreeMonthSum records n m / 100 := by
  have ht : ∀ a, B.totals m a = monthAccountSum records m a / 100 := by
    intro a
    have h0 := bucketRecords_totals records initBuckets B hB m a
    simpa [initBuckets] using h0
  rw [sumAccount_eq_sum]
  calc ((allNodes n).map (fun x => B.totals m x.id)).sum
      = ((allNodes n).map (fun x => monthAccountSum records m x.id / 100)).sum := by
        exact congrArg List.sum (List.map_congr_left fun x _ => ht x.id)
    _ = ((allNodes n).map (fun x => monthAccountSum records m x.id)).sum / 100 := by
        simp only [div_eq_mul_inv]
        rw [List.sum_map_mul_right]
    _ = subtreeMonthSum records n m / 100 := by
        congr 1
        rw [show (allNodes n).map (fun x => monthAccountSum records m x.id) =
            (subtreeIds n).map (fun a => monthAccountSum records m a) from by
          rw [subtreeIds, List.map_map]; rfl]
        rw [sum_monthAccountSum records m (subtreeIds n) hn]
        rfl

/-! ## Month columns -/

theorem bucketRecords_months_sub :
    ∀ (records : List ARecord) (b B : Buckets),
      bucketRecords b records = .ok B → ∀ x ∈ b.months, x ∈ B.months
  | [], b, B, h, x, hx => by
    injection h with h
    subst h
    exact hx
  | r :: rest, b, B, h, x, hx => by
    rw [bucketRecords] at h
    cases hd : r.date with
    | none =>
      rw [bucketStep, hd] at h
      simp at h
    | some d =>
      rw [bucketStep, hd] at h
      refine bucketRecords_months_sub rest _ B h x ?_
      show x ∈ (if monthKeyOf d ∈ b.months then b.months else b.months ++ [monthKeyOf d])
      split
      · exact hx
      · exact List.mem_append_left _ hx

/-- Every record's month ends up in the month set (the set is widened
before anything else can fail for that record). -/
theorem bucketRecords_month_mem :
    ∀ (records : List ARecord) (b B : Buckets),
      bucketRecords b records = .ok B → ∀ r ∈ records, recMonth r ∈ B.months
  | [], _, _, _, r, hr => absurd hr (List.not_mem_nil r)
  | r0 :: rest, b, B, h, r, hr => by
    rw [bucketRecords] at h
    cases hd : r0.date with
    | none =>
      rw [bucketStep, hd] at h
      simp at h
    | some d =>
      rw [bucketStep, hd] at h
      rcases List.mem_cons.mp hr with rfl | hr2
      · refine bucketRecords_months_sub rest _ B h (recMonth r) ?_
        have hrm : recMonth r = monthKeyOf d := by rw [recMonth, hd]; rfl
        rw [hrm]
        show monthKeyOf d ∈
          (if monthKeyOf d ∈ b.months then b.months else b.months ++ [monthKeyOf d])
        split
        · next hmem => exact hmem
        · exact List.mem_append_right _ (List.mem_singleton_self _)
      · exact bucketRecords_month_mem rest _ B h r hr2

theorem sortStrings_cons (s : String) (l : List String) :
    sortStrings (s :: l) = insertSorted s (sortStrings l) := rfl

theorem mem_insertSorted (a s : String) :
    ∀ l : List String, a ∈ insertSorted s l ↔ a = s ∨ a ∈ l
  | [] => by simp [insertSorted]
  | t :: rest => by
    rw [insertSorted]
    split
    · simp
    · rw [List.mem_cons, mem_insertSorted a s rest, List.mem_cons]
      tauto

theorem mem_sortStrings (a : String) :
    ∀ l : List String, a ∈ sortStrings l ↔ a ∈ l
  | [] => by simp [sortStrings]
  | s :: rest => by
    rw [sortStrings_cons, mem_insertSorted, mem_sortStrings a rest, List.mem_cons]

/-! ## Structure of the emitted worksheet rows -/

theorem addAccountRows_rows_eq (B : Buckets) (months : List String) (level : Nat)
    (i n : String) (subs : List AccountNode) :
    (addAccountRows B months level (.node i n subs)).1 =
      Row.summary (indentStr level ++ n) i
          (months.map (fun m => sumAccount B m (.node i n subs))) ::
        ((if subs.isEmpty then
            (B.byAccount i).map (fun tr =>
              Row.detail (indentStr (level + 1) ++ n) i tr.date tr.description
                (months.map (fun m => if m = tr.monthKey then some tr.amount else none)))
          else []) ++
          addAccountRowsList B months (level + 1) subs) := rfl

theorem addAccountRows_totals_eq (B : Buckets) (months : List String) (level : Nat)
    (a : AccountNode) :
    (addAccountRows B months level a).2 = months.map (fun m => sumAccount B m a) := by
  cases a with
  | node i n subs => rfl

mutual

/-- Every row emitted by `addAccountRows` for an account subtree is
either the summary row of a node of that subtree carrying that node's
recursive monthly sums, or a detail row of a leaf of the subtree carrying
one stored transaction. -/
theorem addAccountRows_shape (B : Buckets) (months : List String) :
    ∀ (node : AccountNode) (level : Nat) (row : Row),
      row ∈ (addAccountRows B months level node).1 →
      (∃ n', n' ∈ allNodes node ∧ ∃ lv,
        row = Row.summary (indentStr lv ++ n'.name) n'.id
          (months.map (fun m => sumAccount B m n'))) ∨
      (∃ n', n' ∈ allNodes node ∧ n'.subAccounts = [] ∧ ∃ lv tr, tr ∈ B.byAccount n'.id ∧
        row = Row.detail (indentStr lv ++ n'.name) n'.id tr.date tr.description
          (months.map (fun m => if m = tr.monthKey then some tr.amount else none)))
  | .node i n subs, level, row, hrow => by
    rw [addAccountRows_rows_eq] at hrow
    rcases List.mem_cons.mp hrow with rfl | h2
    · exact Or.inl ⟨.node i n subs, List.mem_cons_self _ _, level, rfl⟩
    · rcases List.mem_append.mp h2 with h3 | h3
      · by_cases hsubs : subs.isEmpty
        · rw [if_pos hsubs] at h3
          obtain ⟨tr, htr, heq⟩ := List.mem_map.mp h3
          refine Or.inr ⟨.node i n subs, List.mem_cons_self _ _, ?_, level + 1, tr, htr, heq.symm⟩
          rw [AccountNode.subAccounts]
          exact List.isEmpty_iff.mp hsubs
        · rw [if_neg hsubs] at h3
          exact absurd h3 (List.not_mem_nil row)
      · rcases addAccountRowsList_shape B months subs (level + 1) row h3 with
          ⟨n', hn', lv, heq⟩ | ⟨n', hn', hleaf, lv, tr, htr, heq⟩
        · exact Or.inl ⟨n', by rw [allNodes]; exact List.mem_cons_of_mem _ hn', lv, heq⟩
        · exact Or.inr ⟨n', by rw [allNodes]; exact List.mem_cons_of_mem _ hn', hleaf,
            lv, tr, htr, heq⟩

theorem addAccountRowsList_shape (B : Buckets) (months : List String) :
    ∀ (l : List AccountNode) (level : Nat) (row : Row),
      row ∈ addAccountRowsList B months level l →
      (∃ n', n' ∈ allNodesList l ∧ ∃ lv,
        row = Row.summary (indentStr lv ++ n'.name) n'.id
          (months.map (fun m => sumAccount B m n'))) ∨
      (∃ n', n' ∈ allNodesList l ∧ n'.subAccounts = [] ∧ ∃ lv tr, tr ∈ B.byAccount n'.id ∧
        row = Row.detail (indentStr lv ++ n'.name) n'.id tr.date tr.description
          (months.map (fun m => if m = tr.monthKey then some tr.amount else none)))
  | [], level, row, hrow => absurd hrow (List.not_mem_nil row)
  | a :: rest, level, row, hrow => by
    rw [addAccountRowsList] at hrow
    rcases List.mem_append.mp hrow with h | h
    · rcases addAccountRows_shape B months a level row h with
        ⟨n', hn', rest'⟩ | ⟨n', hn', rest'⟩
      · exact Or.inl ⟨n', by rw [allNodesList]; exact List.mem_append_left _ hn', rest'⟩
      · exact Or.inr ⟨n', by rw [allNodesList]; exact List.mem_append_left _ hn', rest'⟩
    · rcases addAccountRowsList_shape B months rest level row h with
        ⟨n', hn', rest'⟩ | ⟨n', hn', rest'⟩
      · exact Or.inl ⟨n', by rw [allNodesList]; exact List.mem_append_right _ hn', rest'⟩
      · exact Or.inr ⟨n', by rw [allNodesList]; exact List.mem_append_right _ hn', rest'⟩

end

mutual

/-- Every node of a subtree gets a summary row carrying its recursive
monthly sums. -/
theorem summary_mem_addAccountRows (B : Buckets) (months : List String) :
    ∀ (node : AccountNode) (level : Nat) (n' : AccountNode), n' ∈ allNodes node →
      ∃ lv, Row.summary (indentStr lv ++ n'.name) n'.id
          (months.map (fun m => sumAccount B m n')) ∈ (addAccountRows B months level node).1
  | .node i n subs, level, n', hn' => by
    rw [allNodes] at hn'
    rcases List.mem_cons.mp hn' with rfl | h2
    · exact ⟨level, by rw [addAccountRows_rows_eq]; exact List.mem_cons_self _ _⟩
    · obtain ⟨lv, hmem⟩ := summary_mem_addAccountRowsList B months subs (level + 1) n' h2
      exact ⟨lv, by
        rw [addAccountRows_rows_eq]
        exact List.mem_cons_of_mem _ (List.mem_append_right _ hmem)⟩

theorem summary_mem_addAccountRowsList (B : Buckets) (months : List String) :
    ∀ (l : List AccountNode) (level : Nat) (n' : AccountNode), n' ∈ allNodesList l →
      ∃ lv, Row.summary (indentStr lv ++ n'.name) n'.id
          (months.map (fun m => sumAccount B m n')) ∈ addAccountRowsList B months level l
  | [], _, n', hn' => absurd hn' (List.not_mem_nil n')
  | a :: rest, level, n', hn' => by
    rw [allNodesList] at hn'
    rcases List.mem_append.mp hn' with h | h
    · obtain ⟨lv, hm⟩ := summary_mem_addAccountRows B months a level n' h
      exact ⟨lv, by rw [addAccountRowsList]; exact List.mem_append_left _ hm⟩
    · obtain ⟨lv, hm⟩ := summary_mem_addAccountRowsList B months rest level n' h
      exact ⟨lv, by rw [addAccountRowsList]; exact List.mem_append_right _ hm⟩

end

/-! ## Hard fault on malformed dates (C5) -/

theorem bucketRecords_error_of_invalid_date :
    ∀ (records : List ARecord) (b : Buckets),
      (∃ r ∈ records, r.date = none) →
      bucketRecords b records = .error .malformedDate
  | [], _, ⟨r, hr, _⟩ => absurd hr (List.not_mem_nil r)
  | r0 :: rest, b, ⟨r, hr, hd⟩ => by
    rw [bucketRecords]
    cases hd0 : r0.date with
    | none =>
      rw [bucketStep, hd0]
    | some d =>
      rw [bucketStep, hd0]
      refine bucketRecords_error_of_invalid_date rest _ ?_
      rcases List.mem_cons.mp hr with rfl | h2
      · rw [hd0] at hd
        cases hd
      · exact ⟨r, h2, hd⟩

/-- C5: a record whose date cannot be parsed makes the whole aggregation
fail with the malformed-date fault (the `RangeError` of
`date.toISOString()` on an Invalid Date) — the record is neither
silently skipped nor bucketed into any month column, because no
worksheet is produced at all. -/
theorem claimC5_malformed_date_is_fatal (records : List ARecord) (r : ARecord)
    (hr : r ∈ records) (hd : r.date = none) :
    generateStatementOfActivity records = .error .malformedDate := by
  have hne : records ≠ [] := by
    intro h
    subst h
    exact absurd hr (List.not_mem_nil r)
  rw [generateStatementOfActivity, if_neg hne,
    bucketRecords_error_of_invalid_date records initBuckets ⟨r, hr, hd⟩]
  rfl

/-- Witness for C5: a two-record batch whose second record has an
unparseable date aborts with the malformed-date fault. -/
theorem claimC5_witness :
    (⟨none, 500, "4100", "broken date", ""⟩ : ARecord) ∈
      ([⟨some "2024-01-05T00:00:00.000Z", -1500, "5840", "pizza", ""⟩,
        ⟨none, 500, "4100", "broken date", ""⟩] : List ARecord) ∧
    (⟨none, 500, "4100", "broken date", ""⟩ : ARecord).date = none ∧
    generateStatementOfActivity
      [⟨some "2024-01-05T00:00:00.000Z", -1500, "5840", "pizza", ""⟩,
       ⟨none, 500, "4100", "broken date", ""⟩] = .error .malformedDate :=
  ⟨by decide, rfl,
    claimC5_malformed_date_is_fatal _ ⟨none, 500, "4100", "broken date", ""⟩ (by decide) rfl⟩

/-! ## Summary rollups (C3) -/

theorem allChartNodes_subtreeIds_nodup :
    ∀ n ∈ allChartNodes, (subtreeIds n).Nodup := by decide

theorem mem_allChartNodes_iff {n : AccountNode} :
    n ∈ allChartNodes ↔ n ∈ allNodes incomeRoot ∨ n ∈ allNodes expensesRoot := by
  show n ∈ allNodesList [incomeRoot, expensesRoot] ↔ _
  rw [allNodesList, allNodesList, allNodesList]
  simp

/-- C3 (amended): the statement produced over a grouped record set holds,
for every chart account, a summary row whose value in each month column
is the recursive sum of the subtree's record amounts in that month
divided by 100 (the aggregator re-scales every stored amount to major
units) — and every summary row in the sheet is of exactly this form. -/
theorem claimC3_summary_is_scaled_subtree_sum (records : List ARecord) (B : Buckets)
    (hB : bucketRecords initBuckets records = .ok B) (hne : records ≠ []) :
    generateStatementOfActivity records = .ok (buildStatementRows B) ∧
    (∀ n ∈ allChartNodes, ∃ label,
      Row.summary label n.id
        ((sortStrings B.months).map (fun m => subtreeMonthSum records n m / 100)) ∈
        buildStatementRows B) ∧
    (∀ label i vals, Row.summary label i vals ∈ buildStatementRows B →
      ∃ n, n ∈ allChartNodes ∧ i = n.id ∧
        vals = (sortStrings B.months).map (fun m => subtreeMonthSum records n m / 100)) := by
  have hmap : ∀ n ∈ allChartNodes,
      ((sortStrings B.months).map (fun m => sumAccount B m n)) =
        (sortStrings B.months).map (fun m => subtreeMonthSum records n m / 100) :=
    fun n hn => List.map_congr_left (fun m _ =>
      sumAccount_eq_subtreeMonthSum records B hB n (allChartNodes_subtreeIds_nodup n hn) m)
  refine ⟨?_, ?_, ?_⟩
  · rw [generateStatementOfActivity, if_neg hne, hB]
    rfl
  · intro n hn
    rcases mem_allChartNodes_iff.mp hn with h | h
    · obtain ⟨lv, hm⟩ := summary_mem_addAccountRows B (sortStrings B.months) incomeRoot 1 n h
      refine ⟨indentStr lv ++ n.name, ?_⟩
      rw [← hmap n hn]
      exact List.mem_cons_of_mem _ (List.mem_cons_of_mem _ (List.mem_append_left _ hm))
    · obtain ⟨lv, hm⟩ := summary_mem_addAccountRows B (sortStrings B.months) expensesRoot 1 n h
      refine ⟨indentStr lv ++ n.name, ?_⟩
      rw [← hmap n hn]
      refine List.mem_cons_of_mem _ (List.mem_cons_of_mem _ (List.mem_append_right _ ?_))
      exact List.mem_cons_of_mem _ (List.mem_cons_of_mem _ (List.mem_cons_of_mem _
        (List.mem_append_left _ hm)))
  · intro label i vals hmem
    rw [buildStatementRows] at hmem
    rcases List.mem_cons.mp hmem with heq | hmem
    · exact Row.noConfusion heq
    rcases List.mem_cons.mp hmem with heq | hmem
    · exact Row.noConfusion heq
    rcases List.mem_append.mp hmem with hmem | hmem
    · rcases addAccountRows_shape B (sortStrings B.months) incomeRoot 1 _ hmem with
        ⟨n', hn', lv, heq⟩ | ⟨n', hn', hleaf, lv, tr, htr, heq⟩
      · have hnc : n' ∈ allChartNodes := mem_allChartNodes_iff.mpr (Or.inl hn')
        injection heq with e1 e2 e3
        exact ⟨n', hnc, e2, by rw [e3, hmap n' hnc]⟩
      · exact Row.noConfusion heq
    rcases List.mem_cons.mp hmem with heq | hmem
    · exact Row.noConfusion heq
    rcases List.mem_cons.mp hmem with heq | hmem
    · exact Row.noConfusion heq
    rcases List.mem_cons.mp hmem with heq | hmem
    · exact Row.noConfusion heq
    rcases List.mem_append.mp hmem with hmem | hmem
    · rcases addAccountRows_shape B (sortStrings B.months) expensesRoot 1 _ hmem with
        ⟨n', hn', lv, heq⟩ | ⟨n', hn', hleaf, lv, tr, htr, heq⟩
      · have hnc : n' ∈ allChartNodes := mem_allChartNodes_iff.mpr (Or.inr hn')
        injection heq with e1 e2 e3
        exact ⟨n', hnc, e2, by rw [e3, hmap n' hnc]⟩
      · exact Row.noConfusion heq
    rcases List.mem_cons.mp hmem with heq | hmem
    · exact Row.noConfusion heq
    rcases List.mem_cons.mp hmem with heq | hmem
    · exact Row.noConfusion heq
    rcases List.mem_cons.mp hmem with heq | hmem
    · exact Row.noConfusion heq
    exact absurd hmem (List.not_mem_nil _)

unseal Rat.add Rat.mul Rat.inv in
/-- Counterexample for C3 as stated: with one transaction of `-120000`
minor units under `5410` and one of `-5000` under `5430`, both in
2024-03, the emitted "Technology" (5400) summary value for March 2024 is
`-1250` (the sum divided by 100), not the claimed `-125000`. -/
theorem claimC3_counterexample :
    ∃ rows, generateStatementOfActivity
        [⟨some "2024-03-10T00:00:00.000Z", -120000, "5410", "laptop", ""⟩,
         ⟨some "2024-03-12T00:00:00.000Z", -5000, "5430", "server", ""⟩] = .ok rows ∧
      Row.summary "    Technology" "5400" [-1250] ∈ rows ∧
      (rows.all (fun row =>
        match row with
        | .summary _ i vals => if i = "5400" then decide (vals = [-1250]) else true
        | _ => true)) = true ∧
      ¬((-1250 : Rat) = -125000) := by
  refine ⟨_, rfl, by decide, by decide, by decide⟩

/-! ## Total and net rows (C4) -/

theorem self_mem_allNodes : ∀ a : AccountNode, a ∈ allNodes a
  | .node i n subs => by
    rw [allNodes]
    exact List.mem_cons_self _ _

theorem eq_root_of_id {n' : AccountNode} (i nm : String) (subs : List AccountNode)
    (hn' : n' ∈ allNodes (.node i nm subs)) (hid : n'.id = i)
    (hnot : i ∉ (allNodesList subs).map AccountNode.id) : n' = .node i nm subs := by
  rw [allNodes] at hn'
  rcases List.mem_cons.mp hn' with rfl | h2
  · rfl
  · exact absurd (hid ▸ List.mem_map_of_mem AccountNode.id h2) hnot

theorem addAccountRows_filterMap_none {α : Type} (f : Row → Option α)
    (hf1 : ∀ label i vals, f (Row.summary label i vals) = none)
    (hf2 : ∀ label i date desc vals, f (Row.detail label i date desc vals) = none)
    (B : Buckets) (months : List String) (level : Nat) (node : AccountNode) :
    ((addAccountRows B months level node).1).filterMap f = [] := by
  rw [List.filterMap_eq_nil_iff]
  intro row hrow
  rcases addAccountRows_shape B months node level row hrow with
    ⟨n', _, lv, heq⟩ | ⟨n', _, _, lv, tr, _, heq⟩
  · subst heq
    exact hf1 _ _ _
  · subst heq
    exact hf2 _ _ _ _ _

/-- Decomposition of membership in the assembled worksheet. -/
theorem mem_buildStatementRows_shape (B : Buckets) (row : Row)
    (hrow : row ∈ buildStatementRows B) :
    row = Row.header (["Account", "Account ID", "Date", "Description"] ++ sortStrings B.months) ∨
    row = Row.sectionHeader "INCOME" ∨ row = Row.sectionHeader "EXPENSES" ∨
    row = Row.blank ∨
    row = Row.totalRow "Total Income" (addAccountRows B (sortStrings B.months) 1 incomeRoot).2 ∨
    row = Row.totalRow "Total Expenses" (addAccountRows B (sortStrings B.months) 1 expensesRoot).2 ∨
    row = Row.netRow (List.zipWith (fun a b => a - b)
      (addAccountRows B (sortStrings B.months) 1 incomeRoot).2
      (addAccountRows B (sortStrings B.months) 1 expensesRoot).2) ∨
    row ∈ (addAccountRows B (sortStrings B.months) 1 incomeRoot).1 ∨
    row ∈ (addAccountRows B (sortStrings B.months) 1 expensesRoot).1 := by
  rw [buildStatementRows] at hrow
  rcases List.mem_cons.mp hrow with heq | hrow
  · exact Or.inl heq
  rcases List.mem_cons.mp hrow with heq | hrow
  · exact Or.inr (Or.inl heq)
  rcases List.mem_append.mp hrow with hrow | hrow
  · exact Or.inr (Or.inr (Or.inr (Or.inr (Or.inr (Or.inr (Or.inr (Or.inl hrow)))))))
  rcases List.mem_cons.mp hrow with heq | hrow
  · exact Or.inr (Or.inr (Or.inr (Or.inr (Or.inl heq))))
  rcases List.mem_cons.mp hrow with heq | hrow
  · exact Or.inr (Or.inr (Or.inr (Or.inl heq)))
  rcases List.mem_cons.mp hrow with heq | hrow
  · exact Or.inr (Or.inr (Or.inl heq))
  rcases List.mem_append.mp hrow with hrow | hrow
  · exact Or.inr (Or.inr (Or.inr (Or.inr (Or.inr (Or.inr (Or.inr (Or.inr hrow)))))))
  rcases List.mem_cons.mp hrow with heq | hrow
  · exact Or.inr (Or.inr (Or.inr (Or.inr (Or.inr (Or.inl heq)))))
  rcases List.mem_cons.mp hrow with heq | hrow
  · exact Or.inr (Or.inr (Or.inr (Or.inl heq)))
  rcases List.mem_cons.mp hrow with heq | hrow
  · exact Or.inr (Or.inr (Or.inr (Or.inr (Or.inr (Or.inr (Or.inl heq))))))
  exact absurd hrow (List.not_mem_nil _)

/-- C4: in the produced worksheet there is exactly one Total Income row
and one Total Expenses row, the final Net row's values are exactly the
per-column differences Income total minus Expenses total (over exact
arithmetic, for any signs), and the total rows carry precisely the
monthly values of the income (resp. expenses) root summary row. -/
theorem claimC4_net_is_income_minus_expenses (records : List ARecord) (rows : List Row)
    (h : generateStatementOfActivity records = .ok rows) :
    ∃ inc exp : List Rat,
      rows.filterMap (fun row => match row with
        | Row.totalRow l v => some (l, v)
        | _ => none) = [("Total Income", inc), ("Total Expenses", exp)] ∧
      rows.filterMap (fun row => match row with
        | Row.netRow v => some v
        | _ => none) = [List.zipWith (fun a b => a - b) inc exp] ∧
      inc.length = exp.length ∧
      (∃ label, Row.summary label "4000" inc ∈ rows) ∧
      (∀ label vals, Row.summary label "4000" vals ∈ rows → vals = inc) ∧
      (∃ label, Row.summary label "5000" exp ∈ rows) ∧
      (∀ label vals, Row.summary label "5000" vals ∈ rows → vals = exp) := by
  rw [generateStatementOfActivity] at h
  split at h
  · exact absurd h (by simp)
  cases hb : bucketRecords initBuckets records with
  | error e =>
    rw [hb] at h
    exact absurd h (by simp [Except.map])
  | ok B =>
    rw [hb] at h
    have hrows : rows = buildStatementRows B := by
      simpa [Except.map] using h.symm
    subst hrows
    have hfT : ∀ node, ((addAccountRows B (sortStrings B.months) 1 node).1).filterMap
        (fun row => match row with
          | Row.totalRow l v => some (l, v)
          | _ => none) = [] :=
      fun node => addAccountRows_filterMap_none
        (fun row => match row with
          | Row.totalRow l v => some (l, v)
          | _ => none)
        (fun _ _ _ => rfl) (fun _ _ _ _ _ => rfl) B (sortStrings B.months) 1 node
    have hfN : ∀ node, ((addAccountRows B (sortStrings B.months) 1 node).1).filterMap
        (fun row => match row with
          | Row.netRow v => some v
          | _ => none) = [] :=
      fun node => addAccountRows_filterMap_none
        (fun row => match row with
          | Row.netRow v => some v
          | _ => none)
        (fun _ _ _ => rfl) (fun _ _ _ _ _ => rfl) B (sortStrings B.months) 1 node
    refine ⟨(addAccountRows B (sortStrings B.months) 1 incomeRoot).2,
      (addAccountRows B (sortStrings B.months) 1 expensesRoot).2, ?_, ?_, ?_, ?_, ?_, ?_, ?_⟩
    · rw [buildStatementRows]
      simp only [List.filterMap_cons, List.filterMap_append, hfT]
      rfl
    · rw [buildStatementRows]
      simp only [List.filterMap_cons, List.filterMap_append, hfN]
      rfl
    · rw [addAccountRows_totals_eq, addAccountRows_totals_eq, List.length_map,
        List.length_map]
    · obtain ⟨lv, hm⟩ := summary_mem_addAccountRows B (sortStrings B.months) incomeRoot 1
        incomeRoot (self_mem_allNodes incomeRoot)
      refine ⟨indentStr lv ++ incomeRoot.name, ?_⟩
      rw [buildStatementRows, addAccountRows_totals_eq]
      exact List.mem_cons_of_mem _ (List.mem_cons_of_mem _ (List.mem_append_left _ hm))
    · intro label vals hmem
      rcases mem_buildStatementRows_shape B _ hmem with
        heq | heq | heq | heq | heq | heq | heq | hmem2 | hmem2
      · exact Row.noConfusion heq
      · exact Row.noConfusion heq
      · exact Row.noConfusion heq
      · exact Row.noConfusion heq
      · exact Row.noConfusion heq
      · exact Row.noConfusion heq
      · exact Row.noConfusion heq
      · rcases addAccountRows_shape B (sortStrings B.months) incomeRoot 1 _ hmem2 with
          ⟨n', hn', lv, heq⟩ | ⟨n', _, _, lv, tr, _, heq⟩
        · injection heq with e1 e2 e3
          have hroot : n' = AccountNode.node "4000" "Income" incomeRoot.subAccounts :=
            eq_root_of_id "4000" "Income" incomeRoot.subAccounts hn' e2.symm (by decide)
          subst hroot
          rw [e3, addAccountRows_totals_eq]
          rfl
        · exact Row.noConfusion heq
      · rcases addAccountRows_shape B (sortStrings B.months) expensesRoot 1 _ hmem2 with
          ⟨n', hn', lv, heq⟩ | ⟨n', _, _, lv, tr, _, heq⟩
        · injection heq with e1 e2 e3
          have : "4000" ∈ (allNodes expensesRoot).map AccountNode.id :=
            e2 ▸ List.mem_map_of_mem AccountNode.id hn'
          exact absurd this (by decide)
        · exact Row.noConfusion heq
    · obtain ⟨lv, hm⟩ := summary_mem_addAccountRows B (sortStrings B.months) expensesRoot 1
        expensesRoot (self_mem_allNodes expensesRoot)
      refine ⟨indentStr lv ++ expensesRoot.name, ?_⟩
      rw [buildStatementRows, addAccountRows_totals_eq]
      refine List.mem_cons_of_mem _ (List.mem_cons_of_mem _ (List.mem_append_right _ ?_))
      exact List.mem_cons_of_mem _ (List.mem_cons_of_mem _ (List.mem_cons_of_mem _
        (List.mem_append_left _ hm)))
    · intro label vals hmem
      rcases mem_buildStatementRows_shape B _ hmem with
        heq | heq | heq | heq | heq | heq | heq | hmem2 | hmem2
      · exact Row.noConfusion heq
      · exact Row.noConfusion heq
      · exact Row.noConfusion heq
      · exact Row.noConfusion heq
      · exact Row.noConfusion heq
      · exact Row.noConfusion heq
      · exact Row.noConfusion heq
      · rcases addAccountRows_shape B (sortStrings B.months) incomeRoot 1 _ hmem2 with
          ⟨n', hn', lv, heq⟩ | ⟨n', _, _, lv, tr, _, heq⟩
        · injection heq with e1 e2 e3
          have : "5000" ∈ (allNodes incomeRoot).map AccountNode.id :=
            e2 ▸ List.mem_map_of_mem AccountNode.id hn'
          exact absurd this (by decide)
        · exact Row.noConfusion heq
      · rcases addAccountRows_shape B (sortStrings B.months) expensesRoot 1 _ hmem2 with
          ⟨n', hn', lv, heq⟩ | ⟨n', _, _, lv, tr, _, heq⟩
        · injection heq with e1 e2 e3
          have hroot : n' = AccountNode.node "5000" "Expenses" expensesRoot.subAccounts :=
            eq_root_of_id "5000" "Expenses" expensesRoot.subAccounts hn' e2.symm (by decide)
          subst hroot
          rw [e3, addAccountRows_totals_eq]
          rfl
        · exact Row.noConfusion heq

/-! ## Records outside the chart (C10) -/

theorem allChartNodes_subtree_sub :
    ∀ n ∈ allChartNodes, ∀ i ∈ subtreeIds n, i ∈ allChartIds := by decide

theorem subtreeMonthSum_filter_matched (records : List ARecord) (n : AccountNode)
    (hsub : ∀ i ∈ subtreeIds n, i ∈ allChartIds) (m : String) :
    subtreeMonthSum records n m =
      subtreeMonthSum (records.filter (fun x => x.accountId ∈ allChartIds)) n m := by
  unfold subtreeMonthSum
  congr 2
  induction records with
  | nil => rfl
  | cons r rs ih =>
    rw [List.filter_cons, List.filter_cons]
    by_cases hp : recMonth r = m ∧ r.accountId ∈ subtreeIds n
    · have hq : r.accountId ∈ allChartIds := hsub _ hp.2
      rw [if_pos (by simp [hp.1, hp.2]), if_pos (by simp [hq]), List.filter_cons,
        if_pos (by simp [hp.1, hp.2]), ih]
    · by_cases hq : r.accountId ∈ allChartIds
      · rw [if_neg (by simp only [decide_eq_true_eq]; exact hp), if_pos (by simp [hq]),
          List.filter_cons, if_neg (by simp only [decide_eq_true_eq]; exact hp), ih]
      · rw [if_neg (by simp only [decide_eq_true_eq]; exact hp), if_neg (by simp [hq]), ih]

theorem mem_allChartIds_of_income {n' : AccountNode} (h : n' ∈ allNodes incomeRoot) :
    n'.id ∈ allChartIds := by
  have hm : n'.id ∈ (allNodes incomeRoot).map AccountNode.id :=
    List.mem_map_of_mem _ h
  show n'.id ∈ (allNodesList [incomeRoot, expensesRoot]).map AccountNode.id
  rw [allNodesList, allNodesList, allNodesList, List.append_nil, List.map_append]
  exact List.mem_append_left _ hm

theorem mem_allChartIds_of_expenses {n' : AccountNode} (h : n' ∈ allNodes expensesRoot) :
    n'.id ∈ allChartIds := by
  have hm : n'.id ∈ (allNodes expensesRoot).map AccountNode.id :=
    List.mem_map_of_mem _ h
  show n'.id ∈ (allNodesList [incomeRoot, expensesRoot]).map AccountNode.id
  rw [allNodesList, allNodesList, allNodesList, List.append_nil, List.map_append]
  exact List.mem_append_right _ hm

/-- C10: a record whose `accountId` matches no chart node still widens
the month grid (its month is a column), but its amount contributes to no
account summary — every chart node's monthly value equals the one
computed from the chart-matched records alone, which via C4 also covers
the Total and Net rows — and no detail row is emitted for it, since every
detail row carries the id of a chart node. -/
theorem claimC10_unmatched_account_invisible (records : List ARecord) (B : Buckets)
    (r : ARecord) (hB : bucketRecords initBuckets records = .ok B)
    (hr : r ∈ records) (_hid : r.accountId ∉ allChartIds) :
    recMonth r ∈ sortStrings B.months ∧
    (∀ n ∈ allChartNodes, ∀ m, sumAccount B m n =
      subtreeMonthSum (records.filter (fun x => x.accountId ∈ allChartIds)) n m / 100) ∧
    (∀ label i date desc vals,
      Row.detail label i date desc vals ∈ buildStatementRows B → i ∈ allChartIds) := by
  refine ⟨?_, ?_, ?_⟩
  · exact (mem_sortStrings (recMonth r) B.months).mpr
      (bucketRecords_month_mem records initBuckets B hB r hr)
  · intro n hn m
    rw [sumAccount_eq_subtreeMonthSum records B hB n (allChartNodes_subtreeIds_nodup n hn) m,
      subtreeMonthSum_filter_matched records n (allChartNodes_subtree_sub n hn) m]
  · intro label i date desc vals hmem
    rcases mem_buildStatementRows_shape B _ hmem with
      heq | heq | heq | heq | heq | heq | heq | h2 | h2
    · exact Row.noConfusion heq
    · exact Row.noConfusion heq
    · exact Row.noConfusion heq
    · exact Row.noConfusion heq
    · exact Row.noConfusion heq
    · exact Row.noConfusion heq
    · exact Row.noConfusion heq
    · rcases addAccountRows_shape B (sortStrings B.months) incomeRoot 1 _ h2 with
        ⟨n', hn', lv, heq⟩ | ⟨n', hn', hleaf, lv, tr, htr, heq⟩
      · exact Row.noConfusion heq
      · injection heq with e1 e2 e3 e4 e5
        exact e2 ▸ mem_allChartIds_of_income hn'
    · rcases addAccountRows_shape B (sortStrings B.months) expensesRoot 1 _ h2 with
        ⟨n', hn', lv, heq⟩ | ⟨n', hn', hleaf, lv, tr, htr, heq⟩
      · exact Row.noConfusion heq
      · injection heq with e1 e2 e3 e4 e5
        exact e2 ▸ mem_allChartIds_of_expenses hn'

/-- Witness for C10: a batch with a `"9999"` record dated 2024-07. -/
theorem claimC10_witness :
    ∃ B, bucketRecords initBuckets
        [⟨some "2024-03-10T00:00:00.000Z", -120000, "5410", "laptop", ""⟩,
         ⟨some "2024-07-01T00:00:00.000Z", 999, "9999", "mystery", ""⟩] = .ok B ∧
      ((⟨some "2024-07-01T00:00:00.000Z", 999, "9999", "mystery", ""⟩ : ARecord).accountId ∉
        allChartIds) ∧
      (recMonth ⟨some "2024-07-01T00:00:00.000Z", 999, "9999", "mystery", ""⟩ ∈
        sortStrings B.months ∧
      (∀ n ∈ allChartNodes, ∀ m, sumAccount B m n =
        subtreeMonthSum
          (([⟨some "2024-03-10T00:00:00.000Z", -120000, "5410", "laptop", ""⟩,
             ⟨some "2024-07-01T00:00:00.000Z", 999, "9999", "mystery", ""⟩] :
            List ARecord).filter (fun x => x.accountId ∈ allChartIds)) n m / 100) ∧
      (∀ label i date desc vals,
        Row.detail label i date desc vals ∈ buildStatementRows B → i ∈ allChartIds)) :=
  ⟨_, rfl, by decide,
    claimC10_unmatched_account_invisible _ _
      ⟨some "2024-07-01T00:00:00.000Z", 999, "9999", "mystery", ""⟩ rfl
      (by decide) (by decide)⟩

/-- Witness for C3's amended statement: a one-record batch; the sheet is
produced and every summary row carries the scaled subtree sums. -/
theorem claimC3_witness :
    ∃ B, bucketRecords initBuckets
        [⟨some "2024-03-10T00:00:00.000Z", -120000, "5410", "laptop", ""⟩] = .ok B ∧
      (generateStatementOfActivity
          [⟨some "2024-03-10T00:00:00.000Z", -120000, "5410", "laptop", ""⟩] =
        .ok (buildStatementRows B) ∧
      (∀ n ∈ allChartNodes, ∃ label,
        Row.summary label n.id
          ((sortStrings B.months).map (fun m =>
            subtreeMonthSum
              [⟨some "2024-03-10T00:00:00.000Z", -120000, "5410", "laptop", ""⟩] n m / 100)) ∈
          buildStatementRows B) ∧
      (∀ label i vals, Row.summary label i vals ∈ buildStatementRows B →
        ∃ n, n ∈ allChartNodes ∧ i = n.id ∧
          vals = (sortStrings B.months).map (fun m =>
            subtreeMonthSum
              [⟨some "2024-03-10T00:00:00.000Z", -120000, "5410", "laptop", ""⟩] n m / 100))) :=
  ⟨_, rfl, claimC3_summary_is_scaled_subtree_sum _ _ rfl (by decide)⟩

/-- Witness for C4: a two-record batch (one income, one expense). -/
theorem claimC4_witness :
    ∃ rows, generateStatementOfActivity
        [⟨some "2024-01-05T00:00:00.000Z", 30000, "4200", "donation", ""⟩,
         ⟨some "2024-01-10T00:00:00.000Z", -1500, "5840", "pizza", ""⟩] = .ok rows ∧
      ∃ inc exp : List Rat,
        rows.filterMap (fun row => match row with
          | Row.totalRow l v => some (l, v)
          | _ => none) = [("Total Income", inc), ("Total Expenses", exp)] ∧
        rows.filterMap (fun row => match row with
          | Row.netRow v => some v
          | _ => none) = [List.zipWith (fun a b => a - b) inc exp] ∧
        inc.length = exp.length ∧
        (∃ label, Row.summary label "4000" inc ∈ rows) ∧
        (∀ label vals, Row.summary label "4000" vals ∈ rows → vals = inc) ∧
        (∃ label, Row.summary label "5000" exp ∈ rows) ∧
        (∀ label vals, Row.summary label "5000" vals ∈ rows → vals = exp) :=
  ⟨_, rfl, claimC4_net_is_income_minus_expenses
    [⟨some "2024-01-05T00:00:00.000Z", 30000, "4200", "donation", ""⟩,
     ⟨some "2024-01-10T00:00:00.000Z", -1500, "5840", "pizza", ""⟩] _ rfl⟩


end HcbBooks
